import Mathlib

/-!
# 360-viewer: the static asset server of `main.go`

A shallow embedding of `main.go` (one file, two goroutines) and of the
standard-library calls it makes, followed by the properties proved about it.

* Go strings are Lean strings, read as lists of characters.  All the
  characters the code inspects (`/`, `.`, `%`) are ASCII, so working on
  characters and working on bytes agree.
* `error` is `Option GoError`, with `none` for `nil`.
* The standard logger is a list of the messages handed to it, oldest
  first.  The header the logger puts in front of a message (date and time)
  and the line terminator it adds are framing and are not part of a message.
* A handler is a function on the part of the state it can touch: the logger
  and the responses behind the writers.
* The process is a step function on a state that holds a program counter for
  each of the two goroutines, the channel `quit`, the clock, and the trace of
  what the process has done.  A schedule is a list of actions: a goroutine runs
  its next statement, or the world acts (an interrupt, a tick of the clock, a
  request arriving or completing, the listener call returning).  A statement
  that cannot go on leaves the state as it is.
* Of the standard library, `fmt.Sprintf`, `path.Clean`, `path.Join`, the
  `cleanPath` and the `ServeMux` of `net/http`, `http.Redirect`, `http.Error`,
  `fs.ValidPath` and the `Open` of `fs.Sub` are transcribed as far as the program
  uses them.  Where releases of `net/http` differ in the mux, the release is a
  parameter.  The file server of `net/http` is a parameter too, and what
  `net/url` spells (a redirect target) is kept as a term, not spelled out.
-/

namespace Viewer

/-! ## Go values -/

/-- The non-nil `error` values that reach `main`. -/
inductive GoError where
  /-- The value `http.ErrServerClosed`. -/
  | ErrServerClosed
  /-- The value `context.DeadlineExceeded`. -/
  | DeadlineExceeded
  /-- A `net.Listen` failure, such as a port already in use. -/
  | bindFailure (msg : String)
  /-- A `tls.LoadX509KeyPair` failure, such as an unreadable or invalid file. -/
  | tlsMaterial (msg : String)
  /-- Any other error. -/
  | other (msg : String)
  deriving DecidableEq, Repr

/-- The method `Error()` of an error value. -/
def GoError.Error : GoError → String
  | .ErrServerClosed => "http: Server closed"
  | .DeadlineExceeded => "context deadline exceeded"
  | .bindFailure msg => msg
  | .tlsMaterial msg => msg
  | .other msg => msg

/-- An operand of `fmt.Sprintf`. -/
inductive Arg where
  | str (s : String)
  | uint (n : Nat)
  | bool (b : Bool)
  | err (e : GoError)

/-- The rendering of an operand under the verbs the program uses: `%s` for a
string, `%d` for an unsigned integer, `%v` for a boolean and for an error. -/
def Arg.format : Arg → List Char
  | .str s => s.data
  | .uint n => (Nat.repr n).data
  | .bool b => if b then "true".data else "false".data
  | .err e => e.Error.data

/-- The scan of a format string by `fmt.Sprintf`: `%%` is a percent sign, any
other verb consumes the next operand, every other character is copied.  A verb
with no operand left renders as `%!v(MISSING)` with its own letter.  Only the
verb and operand pairs listed at `Arg.format` are modelled, and operands left
over at the end, which Go reports in the output, are dropped; the program has
neither. -/
def sprintfAux : List Char → List Arg → List Char
  | [], _ => []
  | '%' :: '%' :: rest, args => '%' :: sprintfAux rest args
  | '%' :: _ :: rest, a :: args => a.format ++ sprintfAux rest args
  | '%' :: v :: rest, [] => "%!".data ++ v :: "(MISSING)".data ++ sprintfAux rest []
  | c :: rest, args => c :: sprintfAux rest args

/-- The function `fmt.Sprintf`. -/
def Sprintf (format : String) (args : List Arg) : String :=
  ⟨sprintfAux format.data args⟩

/-- The function `fmt.Sprintln` on string operands: the operands separated by
spaces, then a newline. -/
def Sprintln (args : List String) : String :=
  " ".intercalate args ++ "\n"

/-! ## Requests, responses and handlers -/

/-- The fields of `url.URL` the program and its mux read. -/
structure URL where
  /-- The path, percent-decoded. -/
  Path : String
  /-- The value of the method `EscapedPath()`: the path as the request line
  spells it.  It is `Path` itself when the request line encodes nothing. -/
  EscapedPath : String := Path
  RawQuery : String := ""
  deriving DecidableEq, Repr

/-- The fields of `http.Request` the program and its mux read. -/
structure Request where
  Method : String
  URL : URL
  /-- The request target as sent on the request line. -/
  RequestURI : String := ""
  ProtoMajor : Nat := 1
  ProtoMinor : Nat := 1
  Host : String := ""
  RemoteAddr : String
  Header : List (String × String) := []
  deriving DecidableEq, Repr

/-- A piece of text written to a response.  What `net/url` and `http.Redirect`
spell is kept as a term and is not spelled out. -/
inductive Text where
  /-- The string itself. -/
  | str (s : String)
  /-- The value `http.Redirect` gives the `Location` header for the target. -/
  | location (target : URL)
  /-- The short HTML note, a link to the target with the text of the status,
  that `http.Redirect` writes as the body of the answer to a GET. -/
  | redirectNote (target : URL) (code : Nat)
  deriving DecidableEq, Repr

/-- What has been written through an `http.ResponseWriter`. -/
structure Response where
  /-- The status given to `WriteHeader`; `none` while no header is written. -/
  status : Option Nat := none
  header : List (String × Text) := []
  /-- The pieces written, in order. -/
  body : List Text := []
  deriving DecidableEq, Repr

/-- The part of the process state a handler can touch: the standard logger and
the response behind each `http.ResponseWriter` (writers are named by numbers). -/
structure World where
  log : List String
  writers : Nat → Response

/-- How a call of `ServeHTTP` ends. -/
inductive Outcome where
  | returned
  | panicked (v : String)
  deriving DecidableEq, Repr

/-- An `http.Handler`: its `ServeHTTP(w, r)` as a state transformer. -/
abbrev Handler := Nat → Request → World → World × Outcome

/-- The call `log.Printf(format, v...)`: hands `fmt.Sprintf(format, v...)` to
the standard logger. -/
def logPrintf (format : String) (args : List Arg) (s : World) : World :=
  { s with log := s.log ++ [Sprintf format args] }

/-- The function `loggingMiddleware` (main.go, lines 19 to 24). -/
def loggingMiddleware (next : Handler) : Handler :=
  fun w r s =>
    let s₁ := logPrintf "%s %s %s" [.str r.RemoteAddr, .str r.Method, .str r.URL.Path] s
    next w r s₁

/-- A handler that answers 200 with a fixed body and panics on the path
`/boom`; it does not read the log. -/
def sampleHandler : Handler :=
  fun w r s =>
    if r.URL.Path = "/boom" then (s, .panicked "boom")
    else ({ s with writers := fun i =>
              if i = w then { status := some 200, header := [], body := [.str "ok"] }
              else s.writers i }, .returned)

/-! ## Writing a response -/

/-- The method `Header.Set`: the key gets this one value. -/
def setHeader (k : String) (v : Text) (resp : Response) : Response :=
  { resp with header := resp.header.filter (fun kv => kv.1 != k) ++ [(k, v)] }

/-- The method `WriteHeader`: the first status written stands. -/
def writeHeader (code : Nat) (resp : Response) : Response :=
  match resp.status with
  | some _ => resp
  | none => { resp with status := some code }

/-- The method `Write`: writes the status 200 if none is written yet, then the
data. -/
def write (data : Text) (resp : Response) : Response :=
  { writeHeader 200 resp with body := (writeHeader 200 resp).body ++ [data] }

/-- Applies `f` to the response behind the writer `w`. -/
def onWriter (w : Nat) (f : Response → Response) (s : World) : World :=
  { s with writers := fun i => if i = w then f (s.writers i) else s.writers i }

/-- The code `http.StatusMovedPermanently`. -/
def StatusMovedPermanently : Nat := 301
/-- The code `http.StatusTemporaryRedirect`. -/
def StatusTemporaryRedirect : Nat := 307
/-- The code `http.StatusBadRequest`. -/
def StatusBadRequest : Nat := 400
/-- The code `http.StatusNotFound`. -/
def StatusNotFound : Nat := 404

/-- What differs between releases of `net/http` in the code of the mux that
the handler chain reaches.  The library is not part of the repository, so the
release is a parameter of the model. -/
structure Release where
  /-- The status of the redirect by which the mux answers a request whose path
  is not clean: `http.StatusMovedPermanently` in older releases,
  `http.StatusTemporaryRedirect` in current ones. -/
  redirectStatus : Nat
  /-- Whether the mux reads `r.URL.EscapedPath()`, as it does from Go 1.22 on,
  or `r.URL.Path`, as before. -/
  readsEscapedPath : Bool
  deriving DecidableEq, Repr

/-- The mux of a current release: it reads the escaped path and redirects with
status 307. -/
def currentRelease : Release :=
  { redirectStatus := StatusTemporaryRedirect, readsEscapedPath := true }

/-- The path of a request as the mux reads it. -/
def muxPath (rel : Release) (r : Request) : String :=
  if rel.readsEscapedPath then r.URL.EscapedPath else r.URL.Path

/-- The function `http.Error`: two headers, the status, the message and a
newline.  (Later releases first delete a few headers set earlier; a fresh
writer has none.) -/
def Error (w : Nat) (error : String) (code : Nat) (s : World) : World :=
  onWriter w (fun resp =>
    write (.str (Sprintln [error]))
      (writeHeader code
        (setHeader "X-Content-Type-Options" (.str "nosniff")
          (setHeader "Content-Type" (.str "text/plain; charset=utf-8") resp)))) s

/-- The handler `http.NotFoundHandler()`. -/
def NotFoundHandler : Handler :=
  fun w _ s => (Error w "404 page not found" StatusNotFound s, .returned)

/-- The function `http.Redirect` for a target `u` whose path starts with a
slash: the `Location` header, a content type for GET and HEAD when none is set,
the status, and for GET the note. -/
def Redirect (w : Nat) (r : Request) (u : URL) (code : Nat) (s : World) : World :=
  onWriter w (fun resp =>
    let hadCT := resp.header.any (fun kv => kv.1 == "Content-Type")
    let resp₁ := setHeader "Location" (.location u) resp
    let resp₂ :=
      if !hadCT && (r.Method == "GET" || r.Method == "HEAD") then
        setHeader "Content-Type" (.str "text/html; charset=utf-8") resp₁
      else resp₁
    let resp₃ := writeHeader code resp₂
    if !hadCT && r.Method == "GET" then write (.redirectNote u code) resp₃ else resp₃) s

/-- The handler `http.RedirectHandler(url, code)`. -/
def RedirectHandler (u : URL) (code : Nat) : Handler :=
  fun w r s => (Redirect w r u code s, .returned)

/-! ## Path cleaning: `path.Clean` and the `cleanPath` of `net/http` -/

/-- The inner loop of the `..` case of `path.Clean`: from index `w` of the
output, step back while above `dotdot` and not on a slash. -/
def scanBack (out : List Char) (dotdot : Nat) : Nat → Nat
  | 0 => 0
  | w + 1 =>
    if w + 1 > dotdot ∧ out.getD (w + 1) '/' ≠ '/' then scanBack out dotdot w else w + 1

/-- The loop of `path.Clean`.  `rest` is the input from index `r` on, `out` the
output written so far (the `lazybuf`, whose `w` is the length of `out`), and
`dotdot` the index where `..` must stop.  Every turn consumes input, so the
length of the input is fuel enough. -/
def cleanLoop (rooted : Bool) : Nat → List Char → List Char → Nat → List Char
  | 0, _, out, _ => out
  | fuel + 1, rest, out, dotdot =>
    match rest with
    | [] => out
    | c :: tl =>
      if c = '/' then
        -- empty path element
        cleanLoop rooted fuel tl out dotdot
      else if c = '.' ∧ (tl = [] ∨ tl.head? = some '/') then
        -- . element
        cleanLoop rooted fuel tl out dotdot
      else if c = '.' ∧ tl.head? = some '.' ∧ (tl.tail = [] ∨ tl.tail.head? = some '/') then
        -- .. element: remove to last /
        if out.length > dotdot then
          cleanLoop rooted fuel tl.tail
            (out.take (scanBack out dotdot (out.length - 1))) dotdot
        else if !rooted then
          let out₁ := (if out.length > 0 then out ++ ['/'] else out) ++ ['.', '.']
          cleanLoop rooted fuel tl.tail out₁ out₁.length
        else
          cleanLoop rooted fuel tl.tail out dotdot
      else
        -- real path element: add slash if needed, copy element
        let out₁ :=
          if (rooted && out.length != 1) || (!rooted && out.length != 0) then out ++ ['/']
          else out
        cleanLoop rooted fuel (rest.dropWhile (· ≠ '/')) (out₁ ++ rest.takeWhile (· ≠ '/'))
          dotdot

/-- The function `path.Clean`. -/
def Clean (path : String) : String :=
  if path = "" then "."
  else
    let rooted := path.data.head? == some '/'
    let out :=
      if rooted then cleanLoop true path.length path.data.tail ['/'] 1
      else cleanLoop false path.length path.data [] 0
    -- Turn empty string into "."
    if out = [] then "." else ⟨out⟩

/-- The function `cleanPath` of `net/http`: the canonical path for `p`, without
`.` and `..` elements and without doubled slashes, the trailing slash kept. -/
def cleanPath (p : String) : String :=
  if p = "" then "/"
  else
    let p₁ := if p.data.head? != some '/' then "/" ++ p else p
    let np := Clean p₁
    if p₁.data.getLast? == some '/' && np != "/" then
      if p₁.length == np.length + 1 && np.data.isPrefixOf p₁.data then p₁ else np ++ "/"
    else np

/-- The path has a parent-directory element: one of its slash-separated
elements is `..`. -/
def hasDotDotSegment (p : String) : Bool :=
  (p.data.splitOn '/').contains ['.', '.']

/-- The elements of a slash-separated name that `fs.ValidPath` rejects. -/
def badElem (e : List Char) : Bool :=
  e == [] || e == ['.'] || e == ['.', '.']

/-- The function `fs.ValidPath`: the name is `.`, or every slash-separated
element of it is non-empty and is neither `.` nor `..`.  (Its first test, that
the name is valid UTF-8, always passes on a Lean string.) -/
def ValidPath (name : String) : Bool :=
  name == "." || (name.data.splitOn '/').all (fun e => !badElem e)

/-- The function `path.Join`: the elements joined by slashes, an empty element
ignored until something is written, and the result cleaned. -/
def Join (elem : List String) : String :=
  if (elem.map String.length).sum = 0 then ""
  else
    Clean (elem.foldl
      (fun buf e => if buf ≠ "" ∨ e ≠ "" then (if buf ≠ "" then buf ++ "/" else buf) ++ e else buf)
      "")

/-! ## The embedded tree and its sub-tree -/

/-- A file or directory as `Open` returns it: its name, its bytes, and for a
directory the names of its entries. -/
structure File where
  name : String
  isDir : Bool
  data : String
  entries : List String
  deriving DecidableEq, Repr

/-- An `fs.FS`: its method `Open`. -/
abbrev FS := String → Except GoError File

/-- The method `Open` of the file system that `fs.Sub(fsys, dir)` returns: an
invalid name is refused, a valid one is opened in `fsys` under `dir`.  (The
rewriting of the path quoted inside an error is left out.) -/
def subFSOpen (fsys : FS) (dir : String) : FS :=
  fun name =>
    if ValidPath name then fsys (Join [dir, name])
    else .error (.other ("open " ++ name ++ ": invalid argument"))

/-- The name lies in the sub-tree `static`: it is a valid path whose first
element is `static`. -/
def underStatic (q : String) : Bool :=
  ValidPath q && (q.data.splitOn '/').head? == some "static".data

/-! ## The mux and the handler chain of lines 38 to 44 -/

/-- The lookup `mux.handler` of a `ServeMux` whose one pattern is `/`, as
registered at line 41: the pattern matches every path that starts with a slash.
A path that does not start with a slash, which only a CONNECT request can
bring, has no handler here, as in the mux before Go 1.22. -/
def muxMatch (root : Handler) (path : String) : Handler :=
  if path.data.head? == some '/' then root else NotFoundHandler

/-- The method `(*ServeMux).Handler` (`findHandler` from Go 1.22 on) with `/`
the only pattern (with which the redirect to a path with a trailing slash does
not apply to a path that starts with a slash).  A CONNECT request is looked up
as it is.  Any other request has its path cleaned, and when that changes the
path the handler is a redirect to the cleaned path. -/
def ServeMux.findHandler (rel : Release) (root : Handler) (r : Request) : Handler :=
  if r.Method = "CONNECT" then muxMatch root (muxPath rel r)
  else
    let path := cleanPath (muxPath rel r)
    if path ≠ muxPath rel r then
      RedirectHandler { Path := path, RawQuery := r.URL.RawQuery } rel.redirectStatus
    else muxMatch root (muxPath rel r)

/-- The method `(*ServeMux).ServeHTTP`. -/
def ServeMux.ServeHTTP (rel : Release) (root : Handler) : Handler :=
  fun w r s =>
    if r.RequestURI = "*" then
      (onWriter w (fun resp =>
        writeHeader StatusBadRequest
          (if r.ProtoMajor > 1 ∨ (r.ProtoMajor = 1 ∧ r.ProtoMinor ≥ 1) then
            setHeader "Connection" (.str "close") resp
          else resp)) s, .returned)
    else ServeMux.findHandler rel root r w r s

/-- Lines 40 to 44: the file server behind the pattern `/` of a new mux, the
mux behind the logger. -/
def loggedMux (rel : Release) (fileServer : Handler) : Handler :=
  loggingMiddleware
    (ServeMux.ServeHTTP rel (fun w r s => fileServer w r s))

/-- Lines 34 to 44 for an embedded tree `content`: `subFS` is the sub-tree
`static` of it, and `fileServer` is `http.FileServer(http.FS(subFS))`.  The file
server of `net/http` is the parameter `fileServerOf`: a handler for each file
system, which reaches the files through `Open`. -/
def handlerChain (rel : Release) (fileServerOf : FS → Handler) (content : FS) : Handler :=
  loggedMux rel (fileServerOf (subFSOpen content "static"))

/-- A sample tree: one page under `static` and, beside `static`, one file
with the bytes `secret`. -/
def sampleTree (secret : String) : FS :=
  fun q =>
    if q = "static/index.html" then
      .ok { name := "index.html", isDir := false, data := "<html></html>", entries := [] }
    else if q = "secret.txt" then
      .ok { name := "secret.txt", isDir := false, data := secret, entries := [] }
    else .error (.other ("open " ++ q ++ ": file does not exist"))

/-- A sample file server: it opens the cleaned request path and answers with
the bytes of the file, or with 404. -/
def sampleFileServer (fsys : FS) : Handler :=
  fun w r s =>
    match fsys ((Clean r.URL.Path).drop 1) with
    | .ok f => (onWriter w (fun resp => write (.str f.data) resp) s, .returned)
    | .error _ => NotFoundHandler w r s

/-! ## The process: flags, clock, the two goroutines -/

/-- The values of the four command-line flags after `flag.Parse()`
(main.go, lines 27 to 31). -/
structure Flags where
  port : Nat
  addr : String
  certFile : String
  keyFile : String
  deriving DecidableEq, Repr

/-- The defaults declared for the flags, which `flag.Parse()` leaves in place
when the command line sets no flag. -/
def defaultFlags : Flags :=
  { port := 3000, addr := "", certFile := "", keyFile := "" }

/-- Line 32: `bindAddr := fmt.Sprintf("%s:%d", *addr, *port)`. -/
def bindAddr (f : Flags) : String :=
  Sprintf "%s:%d" [.str f.addr, .uint f.port]

/-- Line 52: `tlsEnabled := *certFile != "" && *keyFile != ""`. -/
def tlsEnabled (f : Flags) : Bool :=
  f.certFile != "" && f.keyFile != ""

/-- The constant `time.Nanosecond`; a `time.Duration` counts nanoseconds. -/
def Nanosecond : Nat := 1
/-- The constant `time.Microsecond`. -/
def Microsecond : Nat := 1000 * Nanosecond
/-- The constant `time.Millisecond`. -/
def Millisecond : Nat := 1000 * Microsecond
/-- The constant `time.Second`. -/
def Second : Nat := 1000 * Millisecond

/-- A `context.Context` as the program builds it. -/
inductive Context where
  /-- The value `context.Background()`. -/
  | Background
  /-- The value `context.WithTimeout(parent, timeout)` made at time `created`. -/
  | WithTimeout (parent : Context) (created timeout : Nat)
  deriving DecidableEq, Repr

/-- The deadline of a context, in nanoseconds of the process clock. -/
def Context.deadline : Context → Option Nat
  | .Background => none
  | .WithTimeout parent created timeout =>
    match parent.deadline with
    | none => some (created + timeout)
    | some d => some (min d (created + timeout))

/-- Whether `ctx.Done()` is closed at time `now`. -/
def Context.expired (ctx : Context) (now : Nat) : Bool :=
  match ctx.deadline with
  | none => false
  | some d => decide (d ≤ now)

/-- The error result of `fs.Sub(fsys, dir)`, which fails only for an invalid
`dir`. -/
def fsSubErr (dir : String) : Option GoError :=
  if ValidPath dir then none
  else some (.other ("sub " ++ dir ++ ": invalid argument"))

/-- How the process ended. -/
inductive ExitStatus where
  /-- The call `os.Exit(code)`, or the return of `main` with code 0. -/
  | code (n : Nat)
  /-- Killed by an interrupt that no `signal.Notify` had claimed. -/
  | killed
  deriving DecidableEq, Repr

/-- What the process does that can be seen from outside, in order. -/
inductive Event where
  /-- A message handed to the standard logger. -/
  | log (msg : String)
  /-- The call `os.Exit(code)`, or the return of `main`. -/
  | exit (code : Nat)
  /-- Line 51: the server goroutine is started. -/
  | go
  /-- Line 58: `server.ListenAndServe()`, with `server.Addr`. -/
  | ListenAndServe (addr : String)
  /-- Line 56: `server.ListenAndServeTLS(certFile, keyFile)`, with `server.Addr`. -/
  | ListenAndServeTLS (addr certFile keyFile : String)
  /-- Line 67: `signal.Notify(quit, os.Interrupt)`. -/
  | Notify
  /-- The operating system delivers an interrupt to the process. -/
  | interrupt
  /-- Line 68: a value is received from `quit`. -/
  | recv
  /-- Line 71: a context is made. -/
  | newContext (ctx : Context)
  /-- Line 73: `server.Shutdown(ctx)` is called. -/
  | Shutdown (ctx : Context)
  /-- Line 72: the deferred `cancel()` runs. -/
  | cancel
  deriving DecidableEq, Repr

/-- Where the main goroutine stands. -/
inductive MainPc where
  /-- Before line 34: flags parsed, `fs.Sub` not yet called. -/
  | start
  /-- Before line 51: handler chain and server value built. -/
  | spawn
  /-- Before lines 66 and 67. -/
  | notify
  /-- At line 68, `<-quit`. -/
  | recv
  /-- Before line 69. -/
  | logShuttingDown
  /-- Before line 71. -/
  | withTimeout
  /-- Before the call of line 73. -/
  | shutdown (ctx : Context)
  /-- Inside `server.Shutdown(ctx)`, in the loop that waits for the connections
  to go idle or for the context to be done. -/
  | polling (ctx : Context)
  /-- At the test of line 73, `Shutdown` having returned `err`. -/
  | afterShutdown (err : Option GoError)
  /-- Before the return of line 77. -/
  | ret
  deriving DecidableEq, Repr

/-- Where the goroutine of lines 51 to 63 stands. -/
inductive GoroutinePc where
  /-- Not yet started. -/
  | notStarted
  /-- Before line 52. -/
  | start
  /-- Before the listener call of line 56 or 58. -/
  | listen
  /-- Inside the listener call. -/
  | serving
  /-- At the test of line 60, the listener call having returned `err`. -/
  | returned (err : Option GoError)
  /-- The goroutine has ended. -/
  | done
  deriving DecidableEq, Repr

/-- The state of the process. -/
structure State where
  flags : Flags
  /-- The error `Shutdown` gets from closing the listeners, which it returns
  once every connection is idle. -/
  closeErr : Option GoError
  /-- The clock, in nanoseconds. -/
  now : Nat
  main : MainPc
  goroutine : GoroutinePc
  /-- Whether `signal.Notify(quit, os.Interrupt)` has been called. -/
  notified : Bool
  /-- The number of values in the channel `quit`, whose capacity is 1. -/
  quit : Nat
  /-- Whether `server.Shutdown` has been called. -/
  inShutdown : Bool
  /-- The number of connections that `Shutdown` waits for: those accepted and
  not idle.  (A new connection that sends nothing counts until it has been
  silent for 5 seconds.) -/
  active : Nat
  trace : List Event
  exited : Option ExitStatus
  deriving DecidableEq, Repr

/-- The process at its start. -/
def init (f : Flags) (closeErr : Option GoError) (t₀ : Nat) : State :=
  { flags := f, closeErr := closeErr, now := t₀, main := .start, goroutine := .notStarted,
    notified := false, quit := 0, inShutdown := false, active := 0, trace := [],
    exited := none }

/-- The call `log.Fatalf(format, v...)`: the message goes to the logger, then
`os.Exit(1)`. -/
def logFatalf (format : String) (args : List Arg) (s : State) : State :=
  { s with trace := s.trace ++ [.log (Sprintf format args), .exit 1],
           exited := some (.code 1) }

/-- One statement of `main` (lines 26 to 77); inside `server.Shutdown`, one
turn of its loop.  The state is returned unchanged where the goroutine cannot
go on: at `<-quit` with an empty channel, and inside `server.Shutdown` while
there is a connection to wait for and the context is not done. -/
def stepMain (s : State) : State :=
  match s.main with
  | .start =>
    match fsSubErr "static" with
    | some err => logFatalf "failed to create sub FS: %v" [.err err] s
    | none => { s with main := .spawn }
  | .spawn =>
    { s with main := .notify, goroutine := .start, trace := s.trace ++ [.go] }
  | .notify =>
    { s with main := .recv, notified := true, trace := s.trace ++ [.Notify] }
  | .recv =>
    if s.quit = 0 then s
    else { s with main := .logShuttingDown, quit := s.quit - 1, trace := s.trace ++ [.recv] }
  | .logShuttingDown =>
    { s with main := .withTimeout, trace := s.trace ++ [.log (Sprintln ["shutting down..."])] }
  | .withTimeout =>
    let ctx := Context.WithTimeout .Background s.now (5 * Second)
    { s with main := .shutdown ctx, trace := s.trace ++ [.newContext ctx] }
  | .shutdown ctx =>
    { s with main := .polling ctx, inShutdown := true, trace := s.trace ++ [.Shutdown ctx] }
  | .polling ctx =>
    if s.active = 0 then { s with main := .afterShutdown s.closeErr }
    else if ctx.expired s.now then { s with main := .afterShutdown (some .DeadlineExceeded) }
    else s
  | .afterShutdown (some err) => logFatalf "failed to shutdown: %v" [.err err] s
  | .afterShutdown none =>
    { s with main := .ret, trace := s.trace ++ [.log (Sprintln ["server stopped"])] }
  | .ret =>
    { s with trace := s.trace ++ [.cancel, .exit 0], exited := some (.code 0) }

/-- One statement of the goroutine of lines 51 to 63.  Inside the listener
call the goroutine waits for the call to return. -/
def stepGoroutine (s : State) : State :=
  match s.goroutine with
  | .notStarted => s
  | .start =>
    { s with goroutine := .listen,
             trace := s.trace ++ [.log (Sprintf "listening on %s (TLS=%v)\n"
               [.str (bindAddr s.flags), .bool (tlsEnabled s.flags)])] }
  | .listen =>
    if tlsEnabled s.flags then
      { s with goroutine := .serving,
               trace := s.trace ++
                 [.ListenAndServeTLS (bindAddr s.flags) s.flags.certFile s.flags.keyFile] }
    else
      { s with goroutine := .serving, trace := s.trace ++ [.ListenAndServe (bindAddr s.flags)] }
  | .serving => s
  | .returned (some err) =>
    if err ≠ .ErrServerClosed then logFatalf "server error: %v" [.err err] s
    else { s with goroutine := .done }
  | .returned none => { s with goroutine := .done }
  | .done => s

/-- What can happen next: a goroutine runs a statement, or the world acts. -/
inductive Action where
  /-- The main goroutine runs its next statement. -/
  | main
  /-- The server goroutine runs its next statement. -/
  | goroutine
  /-- The listener call returns `err`. -/
  | listenerReturns (err : Option GoError)
  /-- The operating system delivers an interrupt. -/
  | interrupt
  /-- The clock advances by `d` nanoseconds. -/
  | tick (d : Nat)
  /-- A connection is accepted: from now on `Shutdown` waits for it. -/
  | accept
  /-- A connection that `Shutdown` waits for goes idle or is closed. -/
  | finish
  deriving DecidableEq, Repr

/-- One step of the process.  Nothing happens in a process that has exited.
An interrupt is sent to `quit` without blocking once `signal.Notify` has been
called, so it is dropped when the channel is full; before that it kills the
process. -/
def step (s : State) (a : Action) : State :=
  if s.exited.isSome then s
  else
    match a with
    | .main => stepMain s
    | .goroutine => stepGoroutine s
    | .listenerReturns err =>
      if s.goroutine = .serving then { s with goroutine := .returned err } else s
    | .interrupt =>
      if s.notified then
        { s with quit := if s.quit < 1 then s.quit + 1 else s.quit,
                 trace := s.trace ++ [.interrupt] }
      else { s with trace := s.trace ++ [.interrupt], exited := some .killed }
    | .tick d => { s with now := s.now + d }
    | .accept =>
      if s.goroutine = .serving ∧ s.inShutdown = false then { s with active := s.active + 1 }
      else s
    | .finish => { s with active := s.active - 1 }

/-- The process after a schedule of steps. -/
def run (s : State) (sched : List Action) : State :=
  sched.foldl step s

/-- The time an action lets pass. -/
def Action.elapsed : Action → Nat
  | .tick d => d
  | _ => 0

/-- The time a schedule lets pass. -/
def ticks : List Action → Nat
  | [] => 0
  | a :: rest => a.elapsed + ticks rest

/-! ## Reading a trace -/

/-- A listener call. -/
def Event.isListen : Event → Bool
  | .ListenAndServe _ => true
  | .ListenAndServeTLS _ _ _ => true
  | _ => false

/-- A call of `server.Shutdown`. -/
def Event.isShutdown : Event → Bool
  | .Shutdown _ => true
  | _ => false

/-- The making of a context. -/
def Event.isNewContext : Event → Bool
  | .newContext _ => true
  | _ => false

/-- In the trace `tr`, every event satisfying `b` has an event satisfying `a`
somewhere before it. -/
def precedes (a b : Event → Bool) (tr : List Event) : Prop :=
  ∀ pre x post, tr = pre ++ x :: post → b x = true → ∃ y ∈ pre, a y = true

/-- The listener call has been made. -/
def GoroutinePc.called : GoroutinePc → Bool
  | .notStarted => false
  | .start => false
  | .listen => false
  | _ => true

/-- A value has been received from `quit`. -/
def MainPc.received : MainPc → Bool
  | .start => false
  | .spawn => false
  | .notify => false
  | .recv => false
  | _ => true

/-- The call of `server.Shutdown` has been made. -/
def MainPc.shutdownCalled : MainPc → Bool
  | .polling _ => true
  | .afterShutdown _ => true
  | .ret => true
  | _ => false

/-- The context has been made. -/
def MainPc.contextMade : MainPc → Bool
  | .start => false
  | .spawn => false
  | .notify => false
  | .recv => false
  | .logShuttingDown => false
  | .withTimeout => false
  | _ => true

/-- The main goroutine cannot go on in `s`: the process is alive and a step of
`main` leaves the state as it is. -/
def mainBlocked (s : State) : Prop :=
  s.exited = none ∧ step s .main = s

instance (s : State) : Decidable (mainBlocked s) := by
  unfold mainBlocked; infer_instance

/-! ## Invariants -/

/-- What holds in every state the process can reach. -/
structure Inv (s : State) : Prop where
  not_spawned : s.main = .start ∨ s.main = .spawn → s.goroutine = .notStarted
  listen_count : s.trace.countP Event.isListen = if s.goroutine.called then 1 else 0
  listen_tls : ∀ a c k, Event.ListenAndServeTLS a c k ∈ s.trace →
    tlsEnabled s.flags = true ∧ a = bindAddr s.flags ∧ c = s.flags.certFile ∧ k = s.flags.keyFile
  listen_plain : ∀ a, Event.ListenAndServe a ∈ s.trace →
    tlsEnabled s.flags = false ∧ a = bindAddr s.flags
  shutdown_count : s.trace.countP Event.isShutdown = if s.main.shutdownCalled then 1 else 0
  context_count : s.trace.countP Event.isNewContext = if s.main.contextMade then 1 else 0
  recv_count : s.trace.countP (· == Event.recv) = if s.main.received then 1 else 0
  recv_mem : s.main.received = true → Event.recv ∈ s.trace
  context_shape : ∀ ctx, Event.newContext ctx ∈ s.trace →
    ∃ t, ctx = .WithTimeout .Background t (5 * Second)
  pending : ∀ ctx, s.main = .shutdown ctx → Event.newContext ctx ∈ s.trace
  quit_le : s.quit ≤ 1
  quit_interrupt : s.quit ≠ 0 → Event.interrupt ∈ s.trace
  interrupt_recv : precedes (· == Event.interrupt) (· == Event.recv) s.trace
  recv_context : precedes (· == Event.recv) Event.isNewContext s.trace
  recv_shutdown : precedes (· == Event.recv) Event.isShutdown s.trace
  stopped_log : Event.log "server stopped\n" ∈ s.trace ↔ s.main = .ret
  exit_zero : s.exited = some (.code 0) → s.main = .ret
  context_shutdown : ∀ ctx, precedes (· == Event.newContext ctx) (· == Event.Shutdown ctx) s.trace

/-- The output of the loop on a rooted path: it starts with a slash and none
of its elements is `..`. -/
structure RootedClean (out : List Char) : Prop where
  head : out.head? = some '/'
  clean : ['.', '.'] ∉ out.splitOn '/'

/-- An element that `fs.ValidPath` accepts: not empty, not `.`, not `..`, and
without a slash. -/
def goodElem (e : List Char) : Prop :=
  badElem e = false ∧ '/' ∉ e

/-- The elements written one after the other with a slash between them. -/
def joinElems : List (List Char) → List Char
  | [] => []
  | [e] => e
  | e :: e₂ :: es => e ++ '/' :: joinElems (e₂ :: es)

/-! # Theorems -/

set_option linter.unusedTactic false
set_option linter.unreachableTactic false

/-! ## Lemmas on traces -/

theorem precedes_nil (a b : Event → Bool) : precedes a b [] := by
  intro pre x post h
  cases pre <;> simp at h

theorem precedes_append_of_none {a b : Event → Bool} {tr ext : List Event}
    (h : precedes a b tr) (hext : ∀ x ∈ ext, b x = false) : precedes a b (tr ++ ext) := by
  intro pre x post heq hb
  rcases List.append_eq_append_iff.mp heq with ⟨a', hpre, hx⟩ | ⟨c', htr, hx⟩
  · have : x ∈ ext := by rw [hx]; simp
    rw [hext x this] at hb; cases hb
  · cases c' with
    | nil =>
      have : x ∈ ext := by simp at hx; rw [← hx]; simp
      rw [hext x this] at hb; cases hb
    | cons c cs =>
      simp at hx
      obtain ⟨rfl, -⟩ := hx
      exact h pre x cs htr hb

theorem precedes_snoc {a b : Event → Bool} {tr : List Event} {e : Event}
    (h : precedes a b tr) (he : ∃ y ∈ tr, a y = true) : precedes a b (tr ++ [e]) := by
  intro pre x post heq hb
  rcases List.append_eq_append_iff.mp heq with ⟨a', hpre, hx⟩ | ⟨c', htr, hx⟩
  · obtain ⟨y, hy, hay⟩ := he
    exact ⟨y, by rw [hpre]; simp [hy], hay⟩
  · cases c' with
    | nil =>
      obtain ⟨y, hy, hay⟩ := he
      simp at htr
      exact ⟨y, by rw [← htr]; exact hy, hay⟩
    | cons c cs =>
      simp at hx
      obtain ⟨rfl, -⟩ := hx
      exact h pre x cs htr hb

/-! ## Facts true of every reachable state -/

theorem fsSubErr_static : fsSubErr "static" = none := by decide

theorem inv_init (f : Flags) (e : Option GoError) (t₀ : Nat) : Inv (init f e t₀) := by
  constructor <;> simp [init, GoroutinePc.called, MainPc.shutdownCalled, MainPc.contextMade,
    MainPc.received, precedes_nil]

theorem step_not_spawned (s : State) (a : Action)
    (h : s.main = .start ∨ s.main = .spawn → s.goroutine = .notStarted) :
    (step s a).main = .start ∨ (step s a).main = .spawn → (step s a).goroutine = .notStarted := by
  rcases s with ⟨flags, closeErr, now, main, goroutine, notified, quit, inShutdown, active, trace,
    exited⟩
  unfold step
  split
  · exact h
  · cases a
    · cases main
      all_goals simp only [stepMain, fsSubErr_static, logFatalf] at *
      all_goals try split
      all_goals try split
      all_goals simp_all
    · cases goroutine
      all_goals simp only [stepGoroutine, logFatalf] at *
      all_goals try split
      all_goals try split
      all_goals simp_all
    all_goals simp only [] at *
    all_goals try split
    all_goals simp_all

theorem step_listen_count (s : State) (a : Action)
    (h0 : s.main = .start ∨ s.main = .spawn → s.goroutine = .notStarted)
    (h : s.trace.countP Event.isListen = if s.goroutine.called then 1 else 0) :
    (step s a).trace.countP Event.isListen = if (step s a).goroutine.called then 1 else 0 := by
  rcases s with ⟨flags, closeErr, now, main, goroutine, notified, quit, inShutdown, active, trace,
    exited⟩
  unfold step
  split
  · exact h
  · cases a
    · cases main
      all_goals simp only [stepMain, fsSubErr_static, logFatalf] at *
      all_goals try split
      all_goals try split
      all_goals simp_all [GoroutinePc.called, List.countP_append, Event.isListen]
    · cases goroutine
      all_goals simp only [stepGoroutine, logFatalf] at *
      all_goals try split
      all_goals try split
      all_goals simp_all [GoroutinePc.called, List.countP_append, Event.isListen]
    all_goals simp only [] at *
    all_goals try split
    all_goals simp_all [GoroutinePc.called, List.countP_append, Event.isListen]

theorem step_emits (s : State) (a : Action) :
    ∃ ext, (step s a).trace = s.trace ++ ext ∧
      (Event.recv ∈ ext → s.quit ≠ 0 ∧ ext = [.recv]) ∧
      (∀ ctx, Event.newContext ctx ∈ ext → s.main = .withTimeout ∧
        ctx = .WithTimeout .Background s.now (5 * Second) ∧ ext = [.newContext ctx]) ∧
      (∀ ctx, Event.Shutdown ctx ∈ ext → s.main = .shutdown ctx ∧ ext = [.Shutdown ctx]) ∧
      (∀ ad c k, Event.ListenAndServeTLS ad c k ∈ ext →
        tlsEnabled s.flags = true ∧ ad = bindAddr s.flags ∧ c = s.flags.certFile ∧
          k = s.flags.keyFile) ∧
      (∀ ad, Event.ListenAndServe ad ∈ ext →
        tlsEnabled s.flags = false ∧ ad = bindAddr s.flags) := by
  rcases s with ⟨flags, closeErr, now, main, goroutine, notified, quit, inShutdown, active, trace,
    exited⟩
  unfold step
  split
  · first | (intros; exact Or.inl (by assumption)) | simp
  · cases a
    · cases main
      all_goals simp only [stepMain, fsSubErr_static, logFatalf] at *
      all_goals try split
      all_goals try split
      all_goals simp_all []
    · cases goroutine
      all_goals simp only [stepGoroutine, logFatalf] at *
      all_goals try split
      all_goals try split
      all_goals simp_all []
    all_goals simp only [] at *
    all_goals try split
    all_goals simp_all []

theorem step_flags (s : State) (a : Action) :
    (step s a).flags = s.flags := by
  rcases s with ⟨flags, closeErr, now, main, goroutine, notified, quit, inShutdown, active, trace,
    exited⟩
  unfold step
  split
  · first | (intros; exact Or.inl (by assumption)) | simp
  · cases a
    · cases main
      all_goals simp only [stepMain, fsSubErr_static, logFatalf] at *
      all_goals try split
      all_goals try split
      all_goals simp_all []
    · cases goroutine
      all_goals simp only [stepGoroutine, logFatalf] at *
      all_goals try split
      all_goals try split
      all_goals simp_all []
    all_goals simp only [] at *
    all_goals try split
    all_goals simp_all []

theorem step_pending (s : State) (a : Action) :
    ∀ ctx, (step s a).main = .shutdown ctx →
      s.main = .shutdown ctx ∨ Event.newContext ctx ∈ (step s a).trace := by
  rcases s with ⟨flags, closeErr, now, main, goroutine, notified, quit, inShutdown, active, trace,
    exited⟩
  unfold step
  split
  · first | (intros; exact Or.inl (by assumption)) | simp
  · cases a
    · cases main
      all_goals simp only [stepMain, fsSubErr_static, logFatalf] at *
      all_goals try split
      all_goals try split
      all_goals simp_all []
    · cases goroutine
      all_goals simp only [stepGoroutine, logFatalf] at *
      all_goals try split
      all_goals try split
      all_goals simp_all []
    all_goals simp only [] at *
    all_goals try split
    all_goals simp_all []

theorem step_received (s : State) (a : Action) :
    (step s a).main.received = true →
      s.main.received = true ∨ Event.recv ∈ (step s a).trace := by
  rcases s with ⟨flags, closeErr, now, main, goroutine, notified, quit, inShutdown, active, trace,
    exited⟩
  unfold step
  split
  · first | (intros; exact Or.inl (by assumption)) | simp
  · cases a
    · cases main
      all_goals simp only [stepMain, fsSubErr_static, logFatalf] at *
      all_goals try split
      all_goals try split
      all_goals simp_all [MainPc.received]
    · cases goroutine
      all_goals simp only [stepGoroutine, logFatalf] at *
      all_goals try split
      all_goals try split
      all_goals simp_all [MainPc.received]
    all_goals simp only [] at *
    all_goals try split
    all_goals simp_all [MainPc.received]

theorem step_quit (s : State) (a : Action) :
    (step s a).quit ≠ 0 → s.quit ≠ 0 ∨ Event.interrupt ∈ (step s a).trace := by
  rcases s with ⟨flags, closeErr, now, main, goroutine, notified, quit, inShutdown, active, trace,
    exited⟩
  unfold step
  split
  · first | (intros; exact Or.inl (by assumption)) | simp
  · cases a
    · cases main
      all_goals simp only [stepMain, fsSubErr_static, logFatalf] at *
      all_goals try split
      all_goals try split
      all_goals simp_all []
    · cases goroutine
      all_goals simp only [stepGoroutine, logFatalf] at *
      all_goals try split
      all_goals try split
      all_goals simp_all []
    all_goals simp only [] at *
    all_goals try split
    all_goals simp_all []

theorem step_shutdown_count (s : State) (a : Action)
    (h : s.trace.countP Event.isShutdown = if s.main.shutdownCalled then 1 else 0) :
    (step s a).trace.countP Event.isShutdown = if (step s a).main.shutdownCalled then 1 else 0 := by
  rcases s with ⟨flags, closeErr, now, main, goroutine, notified, quit, inShutdown, active, trace,
    exited⟩
  unfold step
  split
  · exact h
  · cases a
    · cases main
      all_goals simp only [stepMain, fsSubErr_static, logFatalf] at *
      all_goals try split
      all_goals try split
      all_goals simp_all [MainPc.shutdownCalled, List.countP_append, Event.isShutdown]
    · cases goroutine
      all_goals simp only [stepGoroutine, logFatalf] at *
      all_goals try split
      all_goals try split
      all_goals simp_all [MainPc.shutdownCalled, List.countP_append, Event.isShutdown]
    all_goals simp only [] at *
    all_goals try split
    all_goals simp_all [MainPc.shutdownCalled, List.countP_append, Event.isShutdown]

theorem step_context_count (s : State) (a : Action)
    (h : s.trace.countP Event.isNewContext = if s.main.contextMade then 1 else 0) :
    (step s a).trace.countP Event.isNewContext = if (step s a).main.contextMade then 1 else 0 := by
  rcases s with ⟨flags, closeErr, now, main, goroutine, notified, quit, inShutdown, active, trace,
    exited⟩
  unfold step
  split
  · exact h
  · cases a
    · cases main
      all_goals simp only [stepMain, fsSubErr_static, logFatalf] at *
      all_goals try split
      all_goals try split
      all_goals simp_all [MainPc.contextMade, List.countP_append, Event.isNewContext]
    · cases goroutine
      all_goals simp only [stepGoroutine, logFatalf] at *
      all_goals try split
      all_goals try split
      all_goals simp_all [MainPc.contextMade, List.countP_append, Event.isNewContext]
    all_goals simp only [] at *
    all_goals try split
    all_goals simp_all [MainPc.contextMade, List.countP_append, Event.isNewContext]

theorem step_recv_count (s : State) (a : Action)
    (h : s.trace.countP (· == Event.recv) = if s.main.received then 1 else 0) :
    (step s a).trace.countP (· == Event.recv) = if (step s a).main.received then 1 else 0 := by
  rcases s with ⟨flags, closeErr, now, main, goroutine, notified, quit, inShutdown, active, trace,
    exited⟩
  unfold step
  split
  · exact h
  · cases a
    · cases main
      all_goals simp only [stepMain, fsSubErr_static, logFatalf] at *
      all_goals try split
      all_goals try split
      all_goals simp_all [MainPc.received, List.countP_append]
    · cases goroutine
      all_goals simp only [stepGoroutine, logFatalf] at *
      all_goals try split
      all_goals try split
      all_goals simp_all [MainPc.received, List.countP_append]
    all_goals simp only [] at *
    all_goals try split
    all_goals simp_all [MainPc.received, List.countP_append]

theorem step_quit_le (s : State) (a : Action)
    (h : s.quit ≤ 1) :
    (step s a).quit ≤ 1 := by
  rcases s with ⟨flags, closeErr, now, main, goroutine, notified, quit, inShutdown, active, trace,
    exited⟩
  unfold step
  split
  · exact h
  · cases a
    · cases main
      all_goals simp only [stepMain, fsSubErr_static, logFatalf] at *
      all_goals try split
      all_goals try split
      all_goals simp_all []
    · cases goroutine
      all_goals simp only [stepGoroutine, logFatalf] at *
      all_goals try split
      all_goals try split
      all_goals simp_all []
    all_goals simp only [] at *
    all_goals try split
    all_goals simp_all []
    split <;> omega

theorem Sprintln_shuttingDown : Sprintln ["shutting down..."] = "shutting down...\n" := by
  decide

theorem Sprintln_stopped : Sprintln ["server stopped"] = "server stopped\n" := by decide

theorem step_stopped (s : State) (a : Action) :
    Event.log "server stopped\n" ∈ (step s a).trace →
      Event.log "server stopped\n" ∈ s.trace ∨ (step s a).main = .ret := by
  rcases s with ⟨flags, closeErr, now, main, goroutine, notified, quit, inShutdown, active, trace,
    exited⟩
  unfold step
  split
  · first | (intros; exact Or.inl (by assumption)) | simp
  · cases a
    · cases main
      all_goals simp only [stepMain, fsSubErr_static, logFatalf] at *
      all_goals try split
      all_goals try split
      all_goals simp_all [Sprintf, sprintfAux, String.ext_iff, Sprintln_shuttingDown, Sprintln_stopped]
    · cases goroutine
      all_goals simp only [stepGoroutine, logFatalf] at *
      all_goals try split
      all_goals try split
      all_goals simp_all [Sprintf, sprintfAux, String.ext_iff, Sprintln_shuttingDown, Sprintln_stopped]
    all_goals simp only [] at *
    all_goals try split
    all_goals simp_all [Sprintf, sprintfAux, String.ext_iff, Sprintln_shuttingDown, Sprintln_stopped]

theorem step_ret (s : State) (a : Action)
    (h : s.main = .ret) :
    (step s a).main = .ret := by
  rcases s with ⟨flags, closeErr, now, main, goroutine, notified, quit, inShutdown, active, trace,
    exited⟩
  unfold step
  split
  · exact h
  · cases a
    · cases main
      all_goals simp only [stepMain, fsSubErr_static, logFatalf] at *
      all_goals try split
      all_goals try split
      all_goals simp_all []
    · cases goroutine
      all_goals simp only [stepGoroutine, logFatalf] at *
      all_goals try split
      all_goals try split
      all_goals simp_all []
    all_goals simp only [] at *
    all_goals try split
    all_goals simp_all []

theorem step_to_ret (s : State) (a : Action) :
    (step s a).main = .ret →
      s.main = .ret ∨ Event.log "server stopped\n" ∈ (step s a).trace := by
  rcases s with ⟨flags, closeErr, now, main, goroutine, notified, quit, inShutdown, active, trace,
    exited⟩
  unfold step
  split
  · first | (intros; exact Or.inl (by assumption)) | simp
  · cases a
    · cases main
      all_goals simp only [stepMain, fsSubErr_static, logFatalf] at *
      all_goals try split
      all_goals try split
      all_goals simp_all [Sprintln_stopped]
    · cases goroutine
      all_goals simp only [stepGoroutine, logFatalf] at *
      all_goals try split
      all_goals try split
      all_goals simp_all [Sprintln_stopped]
    all_goals simp only [] at *
    all_goals try split
    all_goals simp_all [Sprintln_stopped]

theorem step_exit_zero (s : State) (a : Action) :
    (step s a).exited = some (.code 0) →
      s.exited = some (.code 0) ∨ s.main = .ret := by
  rcases s with ⟨flags, closeErr, now, main, goroutine, notified, quit, inShutdown, active, trace,
    exited⟩
  unfold step
  split
  · first | (intros; exact Or.inl (by assumption)) | simp
  · cases a
    · cases main
      all_goals simp only [stepMain, fsSubErr_static, logFatalf] at *
      all_goals try split
      all_goals try split
      all_goals simp_all []
    · cases goroutine
      all_goals simp only [stepGoroutine, logFatalf] at *
      all_goals try split
      all_goals try split
      all_goals simp_all []
    all_goals simp only [] at *
    all_goals try split
    all_goals simp_all []

theorem inv_step (s : State) (a : Action) (h : Inv s) : Inv (step s a) := by
  obtain ⟨ext, htr, hrecv, hctx, hshut, htls, hplain⟩ := step_emits s a
  have hmem : ∀ x, x ∈ (step s a).trace → x ∈ s.trace ∨ x ∈ ext := by
    intro x hx
    rw [htr] at hx
    exact List.mem_append.mp hx
  have hmono : ∀ x, x ∈ s.trace → x ∈ (step s a).trace := by
    intro x hx
    rw [htr]
    exact List.mem_append.mpr (Or.inl hx)
  refine
    { not_spawned := step_not_spawned s a h.not_spawned
      listen_count := step_listen_count s a h.not_spawned h.listen_count
      listen_tls := ?_
      listen_plain := ?_
      shutdown_count := step_shutdown_count s a h.shutdown_count
      context_count := step_context_count s a h.context_count
      recv_count := step_recv_count s a h.recv_count
      recv_mem := ?_
      context_shape := ?_
      pending := ?_
      quit_le := step_quit_le s a h.quit_le
      quit_interrupt := ?_
      interrupt_recv := ?_
      recv_context := ?_
      recv_shutdown := ?_
      stopped_log := ?_
      exit_zero := ?_
      context_shutdown := ?_ }
  · intro ad c k hx
    rw [step_flags]
    rcases hmem _ hx with hx | hx
    · exact h.listen_tls ad c k hx
    · exact htls ad c k hx
  · intro ad hx
    rw [step_flags]
    rcases hmem _ hx with hx | hx
    · exact h.listen_plain ad hx
    · exact hplain ad hx
  · intro hr
    rcases step_received s a hr with hr | hr
    · exact hmono _ (h.recv_mem hr)
    · exact hr
  · intro ctx hx
    rcases hmem _ hx with hx | hx
    · exact h.context_shape ctx hx
    · exact ⟨_, (hctx ctx hx).2.1⟩
  · intro ctx hp
    rcases step_pending s a ctx hp with hp | hp
    · exact hmono _ (h.pending ctx hp)
    · exact hp
  · intro hq
    rcases step_quit s a hq with hq | hq
    · exact hmono _ (h.quit_interrupt hq)
    · exact hq
  · rw [htr]
    by_cases hin : Event.recv ∈ ext
    · obtain ⟨hq, rfl⟩ := hrecv hin
      exact precedes_snoc h.interrupt_recv ⟨_, h.quit_interrupt hq, by simp⟩
    · refine precedes_append_of_none h.interrupt_recv ?_
      intro x hx
      by_cases hxe : x = Event.recv
      · subst hxe; exact absurd hx hin
      · simpa using hxe
  · rw [htr]
    by_cases hin : ∃ ctx, Event.newContext ctx ∈ ext
    · obtain ⟨ctx, hin⟩ := hin
      obtain ⟨hm, -, rfl⟩ := hctx ctx hin
      exact precedes_snoc h.recv_context ⟨_, h.recv_mem (by rw [hm]; rfl), by simp⟩
    · refine precedes_append_of_none h.recv_context ?_
      intro x hx
      cases x <;> simp [Event.isNewContext]
      exact hin ⟨_, hx⟩
  · rw [htr]
    by_cases hin : ∃ ctx, Event.Shutdown ctx ∈ ext
    · obtain ⟨ctx, hin⟩ := hin
      obtain ⟨hm, rfl⟩ := hshut ctx hin
      exact precedes_snoc h.recv_shutdown ⟨_, h.recv_mem (by rw [hm]; rfl), by simp⟩
    · refine precedes_append_of_none h.recv_shutdown ?_
      intro x hx
      cases x <;> simp [Event.isShutdown]
      exact hin ⟨_, hx⟩
  · constructor
    · intro hx
      rcases step_stopped s a hx with hx | hx
      · exact step_ret s a (h.stopped_log.mp hx)
      · exact hx
    · intro hr
      rcases step_to_ret s a hr with hr | hr
      · exact hmono _ (h.stopped_log.mpr hr)
      · exact hr
  · intro he
    rcases step_exit_zero s a he with he | he
    · exact step_ret s a (h.exit_zero he)
    · exact step_ret s a he
  · intro ctx
    rw [htr]
    by_cases hin : Event.Shutdown ctx ∈ ext
    · obtain ⟨hp, rfl⟩ := hshut ctx hin
      exact precedes_snoc (h.context_shutdown ctx) ⟨_, h.pending ctx hp, by simp⟩
    · refine precedes_append_of_none (h.context_shutdown ctx) ?_
      intro x hx
      by_cases hxe : x = Event.Shutdown ctx
      · subst hxe; exact absurd hx hin
      · simpa using hxe

theorem inv_run (s : State) (sched : List Action) (h : Inv s) : Inv (run s sched) := by
  induction sched generalizing s with
  | nil => exact h
  | cons a rest ih => exact ih (step s a) (inv_step s a h)

theorem inv_reachable (f : Flags) (e : Option GoError) (t₀ : Nat) (sched : List Action) :
    Inv (run (init f e t₀) sched) :=
  inv_run _ sched (inv_init f e t₀)

theorem run_flags (s : State) (sched : List Action) : (run s sched).flags = s.flags := by
  induction sched generalizing s with
  | nil => rfl
  | cons a rest ih =>
    show (run (step s a) rest).flags = s.flags
    rw [ih, step_flags]

theorem run_exited (s : State) (sched : List Action) (h : s.exited.isSome = true) :
    run s sched = s := by
  induction sched with
  | nil => rfl
  | cons a rest ih =>
    show run (step s a) rest = s
    have : step s a = s := by simp [step, h]
    rw [this, ih]

theorem run_append (s : State) (xs ys : List Action) :
    run s (xs ++ ys) = run (run s xs) ys := by
  simp [run, List.foldl_append]

/-! ## The request logger -/

/-- C2: for every next handler and every request, the handler made by
`loggingMiddleware` hands exactly one message to the logger, the remote address,
the method and the path separated by single spaces, and `next.ServeHTTP` runs in
the world in which that message is already logged. -/
theorem logging_record_before_next (next : Handler) (w : Nat) (r : Request) (s : World) :
    loggingMiddleware next w r s =
        next w r { s with log := s.log ++ [r.RemoteAddr ++ " " ++ r.Method ++ " " ++ r.URL.Path] } ∧
      ∀ o : Outcome, (loggingMiddleware (fun _ _ s₁ => (s₁, o)) w r s).1.log =
        s.log ++ [r.RemoteAddr ++ " " ++ r.Method ++ " " ++ r.URL.Path] := by
  have key : Sprintf "%s %s %s" [.str r.RemoteAddr, .str r.Method, .str r.URL.Path] =
      r.RemoteAddr ++ " " ++ r.Method ++ " " ++ r.URL.Path := by
    apply String.ext
    simp [Sprintf, sprintfAux, Arg.format]
  constructor
  · simp only [loggingMiddleware, logPrintf, key]
  · intro o
    simp only [loggingMiddleware, logPrintf, key]

/-- C3: the handler made by `loggingMiddleware` is one call of `next.ServeHTTP`
with the same writer and the same request, in a world that differs from the
caller's by one log message and nothing else; so when `next` does not read the
log, the responses and the outcome (a return or a panic) are those of `next`
alone. -/
theorem logging_pass_through (next : Handler) (w : Nat) (r : Request) (s : World) :
    (∃ s₁ : World, s₁.writers = s.writers ∧ (∃ msg, s₁.log = s.log ++ [msg]) ∧
      loggingMiddleware next w r s = next w r s₁) ∧
    ((∀ s₁ s₂ : World, s₁.writers = s₂.writers →
        (next w r s₁).1.writers = (next w r s₂).1.writers ∧ (next w r s₁).2 = (next w r s₂).2) →
      (loggingMiddleware next w r s).1.writers = (next w r s).1.writers ∧
        (loggingMiddleware next w r s).2 = (next w r s).2) := by
  constructor
  · exact ⟨logPrintf "%s %s %s" [.str r.RemoteAddr, .str r.Method, .str r.URL.Path] s, rfl,
      ⟨_, rfl⟩, rfl⟩
  · intro h
    exact h _ _ rfl

/-- The pass-through property at a handler that panics. -/
theorem logging_pass_through_witness :
    (loggingMiddleware sampleHandler 0
        { Method := "GET", URL := { Path := "/boom" }, RemoteAddr := "10.0.0.1:5000" }
        { log := [], writers := fun _ => {} }).2 = .panicked "boom" :=
  ((logging_pass_through sampleHandler 0
      { Method := "GET", URL := { Path := "/boom" }, RemoteAddr := "10.0.0.1:5000" }
      { log := [], writers := fun _ => {} }).2
    (by intro s₁ s₂ h; simp [sampleHandler, h])).2

/-! ## Configuration and the choice of listener -/

theorem bindAddr_eq (f : Flags) : bindAddr f = f.addr ++ ":" ++ Nat.repr f.port := by
  apply String.ext
  simp [bindAddr, Sprintf, sprintfAux, Arg.format]

theorem tlsEnabled_iff (f : Flags) :
    tlsEnabled f = true ↔ f.certFile ≠ "" ∧ f.keyFile ≠ "" := by
  simp [tlsEnabled]

theorem run_to_listen (f : Flags) (e : Option GoError) (t₀ : Nat) :
    (run (init f e t₀) [.main, .main, .goroutine, .goroutine]).trace =
      [.go, .log (Sprintf "listening on %s (TLS=%v)\n" [.str (bindAddr f), .bool (tlsEnabled f)]),
        if tlsEnabled f = true then .ListenAndServeTLS (bindAddr f) f.certFile f.keyFile
        else .ListenAndServe (bindAddr f)] ∧
    (run (init f e t₀) [.main, .main, .goroutine, .goroutine]).exited = none := by
  by_cases ht : tlsEnabled f = true
  · simp [run, step, init, stepMain, stepGoroutine, fsSubErr_static, ht]
  · simp [run, step, init, stepMain, stepGoroutine, fsSubErr_static, ht]

/-- C8: the bind address is the address flag, a colon and the port in decimal,
and it is the address of every listener call; the declared defaults are port
3000 and empty address, certificate and key, so that a process started with no
flag makes the plain listener call on `:3000`. -/
theorem bind_address_format :
    (∀ (a : String) (p : Nat) (c k : String),
      bindAddr { port := p, addr := a, certFile := c, keyFile := k } = a ++ ":" ++ Nat.repr p) ∧
    (∀ (f : Flags) (e : Option GoError) (t₀ : Nat) (sched : List Action) (ev : Event),
      ev ∈ (run (init f e t₀) sched).trace →
        (∀ ad, ev = .ListenAndServe ad → ad = f.addr ++ ":" ++ Nat.repr f.port) ∧
        (∀ ad c k, ev = .ListenAndServeTLS ad c k → ad = f.addr ++ ":" ++ Nat.repr f.port)) ∧
    defaultFlags = { port := 3000, addr := "", certFile := "", keyFile := "" } ∧
    bindAddr defaultFlags = ":3000" ∧
    (∀ (e : Option GoError) (t₀ : Nat),
      (run (init defaultFlags e t₀) [.main, .main, .goroutine, .goroutine]).trace =
        [.go, .log "listening on :3000 (TLS=false)\n", .ListenAndServe ":3000"]) := by
  refine ⟨fun a p c k => bindAddr_eq _, ?_, rfl, by decide, ?_⟩
  · intro f e t₀ sched ev hev
    have hinv := inv_reachable f e t₀ sched
    have hf : (run (init f e t₀) sched).flags = f := run_flags _ _
    constructor
    · intro ad had
      subst had
      have := (hinv.listen_plain ad hev).2
      rw [this, hf, bindAddr_eq]
    · intro ad c k had
      subst had
      have := (hinv.listen_tls ad c k hev).2.1
      rw [this, hf, bindAddr_eq]
  · intro e t₀
    rw [(run_to_listen defaultFlags e t₀).1]
    decide

/-- The listener call of a process started without flags. -/
theorem bind_address_format_witness :
    ∀ ad, Event.ListenAndServe ":3000" = .ListenAndServe ad → ad = "" ++ ":" ++ Nat.repr 3000 :=
  (bind_address_format.2.1 defaultFlags none 0 [.main, .main, .goroutine, .goroutine]
    (.ListenAndServe ":3000") (by decide)).1

/-- C1: for every value of the flags, the goroutine makes the TLS listener call,
with the certificate and key given, when both are non-empty and the plain
listener call otherwise, also when exactly one of them is non-empty; the
process has not exited at that point, and in no run does a listener call of the
other kind appear. -/
theorem listener_choice (f : Flags) (e : Option GoError) (t₀ : Nat) :
    (run (init f e t₀) [.main, .main, .goroutine, .goroutine]).trace =
      [.go, .log (Sprintf "listening on %s (TLS=%v)\n" [.str (bindAddr f), .bool (tlsEnabled f)]),
        if f.certFile ≠ "" ∧ f.keyFile ≠ "" then .ListenAndServeTLS (bindAddr f) f.certFile f.keyFile
        else .ListenAndServe (bindAddr f)] ∧
    (run (init f e t₀) [.main, .main, .goroutine, .goroutine]).exited = none ∧
    ∀ sched : List Action,
      ((∃ ad c k, Event.ListenAndServeTLS ad c k ∈ (run (init f e t₀) sched).trace) →
        f.certFile ≠ "" ∧ f.keyFile ≠ "") ∧
      ((∃ ad, Event.ListenAndServe ad ∈ (run (init f e t₀) sched).trace) →
        ¬ (f.certFile ≠ "" ∧ f.keyFile ≠ "")) := by
  refine ⟨?_, (run_to_listen f e t₀).2, ?_⟩
  · rw [(run_to_listen f e t₀).1]
    simp only [tlsEnabled_iff]
  · intro sched
    have hinv := inv_reachable f e t₀ sched
    have hf : (run (init f e t₀) sched).flags = f := run_flags _ _
    constructor
    · rintro ⟨ad, c, k, hev⟩
      have := (hinv.listen_tls ad c k hev).1
      rw [hf] at this
      exact (tlsEnabled_iff f).mp this
    · rintro ⟨ad, hev⟩
      have := (hinv.listen_plain ad hev).1
      rw [hf] at this
      intro hboth
      rw [(tlsEnabled_iff f).mpr hboth] at this
      cases this

/-- A certificate without a key: the plain listener call is made. -/
theorem listener_choice_witness :
    ¬ (("server.crt" : String) ≠ "" ∧ ("" : String) ≠ "") :=
  ((listener_choice { port := 8443, addr := "", certFile := "server.crt", keyFile := "" } none 0).2.2
    [.main, .main, .goroutine, .goroutine]).2 ⟨":8443", by decide⟩

/-! ## The result of the listener call -/

/-- C5: when the listener call has returned `e`, the goroutine ends the process
with `log.Fatalf` (a diagnostic, then exit code 1) if and only if `e` is
neither nil nor `http.ErrServerClosed`; a bind failure and a failure to load the
TLS material are fatal, `http.ErrServerClosed` and nil leave the process
running with nothing logged; and in no run is a listener call made twice. -/
theorem listener_error_fatal (s : State) (e : Option GoError)
    (halive : s.exited = none) (hpc : s.goroutine = .returned e) :
    ((step s .goroutine).exited = some (.code 1) ↔ e ≠ none ∧ e ≠ some .ErrServerClosed) ∧
    (∀ err, e = some err → err ≠ .ErrServerClosed →
      (step s .goroutine).trace =
        s.trace ++ [.log ("server error: " ++ err.Error), .exit 1]) ∧
    (∀ msg, e = some (.bindFailure msg) → (step s .goroutine).exited = some (.code 1)) ∧
    (∀ msg, e = some (.tlsMaterial msg) → (step s .goroutine).exited = some (.code 1)) ∧
    (e = none ∨ e = some .ErrServerClosed →
      (step s .goroutine).exited = none ∧ (step s .goroutine).trace = s.trace) ∧
    (∀ (f : Flags) (c : Option GoError) (t₀ : Nat) (sched : List Action),
      (run (init f c t₀) sched).trace.countP Event.isListen ≤ 1) := by
  have hfmt : ∀ err : GoError,
      Sprintf "server error: %v" [.err err] = "server error: " ++ err.Error := by
    intro err
    apply String.ext
    simp [Sprintf, sprintfAux, Arg.format]
  have hsome : s.exited.isSome = false := by rw [halive]; rfl
  refine ⟨?_, ?_, ?_, ?_, ?_, ?_⟩
  · rcases e with _ | err
    · simp [step, hsome, stepGoroutine, hpc, halive]
    · by_cases hc : err = .ErrServerClosed
      · simp [step, hsome, stepGoroutine, hpc, halive, hc]
      · simp [step, hsome, stepGoroutine, hpc, hc, logFatalf]
  · intro err he hne
    subst he
    simp [step, hsome, stepGoroutine, hpc, hne, logFatalf, hfmt]
  · intro msg he
    subst he
    simp [step, hsome, stepGoroutine, hpc, logFatalf]
  · intro msg he
    subst he
    simp [step, hsome, stepGoroutine, hpc, logFatalf]
  · rintro (he | he)
    · subst he
      simp [step, hsome, stepGoroutine, hpc, halive]
    · subst he
      simp [step, hsome, stepGoroutine, hpc, halive]
  · intro f c t₀ sched
    rw [(inv_reachable f c t₀ sched).listen_count]
    split <;> simp

/-- The port is taken: the listener call returns a bind failure and the process
exits with code 1. -/
theorem listener_error_fatal_witness :
    (step (run (init defaultFlags none 0)
        [.main, .main, .goroutine, .goroutine,
          .listenerReturns (some (.bindFailure "listen tcp :3000: bind: address already in use"))])
      .goroutine).exited = some (.code 1) :=
  (listener_error_fatal
    (run (init defaultFlags none 0)
        [.main, .main, .goroutine, .goroutine,
          .listenerReturns (some (.bindFailure "listen tcp :3000: bind: address already in use"))])
    (some (.bindFailure "listen tcp :3000: bind: address already in use"))
    (by decide) (by decide)).2.2.1 _ rfl

/-! ## Shutdown -/

/-- C6: once `server.Shutdown` has returned `e`: on nil, `main` logs
`server stopped`, runs the deferred cancel and returns, and the process ends with
code 0; on an error, the deadline error included, `main` calls `log.Fatalf`, the
process ends with code 1, and the log gets the diagnostic and nothing after it,
whatever is scheduled next.  `Shutdown` returns the deadline error when the
context expires with a connection still to wait for.  In every run `server stopped`
is in the log exactly when `main` has passed the test of line 73 with nil, and
only then is the exit code 0. -/
theorem shutdown_result_decides (s : State) (e : Option GoError)
    (halive : s.exited = none) (hpc : s.main = .afterShutdown e) :
    (e = none →
      (run s [.main, .main]).exited = some (.code 0) ∧
      (run s [.main, .main]).trace =
        s.trace ++ [.log "server stopped\n", .cancel, .exit 0]) ∧
    (∀ err, e = some err →
      (step s .main).exited = some (.code 1) ∧
      ∀ sched : List Action, (run (step s .main) sched).trace =
        s.trace ++ [.log ("failed to shutdown: " ++ err.Error), .exit 1]) ∧
    (∀ ctx : Context, ∀ s₀ : State, s₀.exited = none → s₀.main = .polling ctx →
      ((s₀.active = 0 → (step s₀ .main).main = .afterShutdown s₀.closeErr) ∧
       (s₀.active ≠ 0 → ctx.expired s₀.now = true →
          (step s₀ .main).main = .afterShutdown (some .DeadlineExceeded)))) ∧
    (∀ (f : Flags) (c : Option GoError) (t₀ : Nat) (sched : List Action),
      (Event.log "server stopped\n" ∈ (run (init f c t₀) sched).trace ↔
        (run (init f c t₀) sched).main = .ret) ∧
      ((run (init f c t₀) sched).exited = some (.code 0) →
        (run (init f c t₀) sched).main = .ret)) := by
  have hfmt : ∀ err : GoError,
      Sprintf "failed to shutdown: %v" [.err err] = "failed to shutdown: " ++ err.Error := by
    intro err
    apply String.ext
    simp [Sprintf, sprintfAux, Arg.format]
  have hsome : s.exited.isSome = false := by rw [halive]; rfl
  refine ⟨?_, ?_, ?_, fun f c t₀ sched =>
    ⟨(inv_reachable f c t₀ sched).stopped_log, (inv_reachable f c t₀ sched).exit_zero⟩⟩
  · intro he
    subst he
    have hs : Sprintln ["server stopped"] = "server stopped\n" := by decide
    simp [run, step, hsome, stepMain, hpc, halive, hs]
  · intro err he
    subst he
    have h1 : (step s .main).exited = some (.code 1) := by
      simp [step, hsome, stepMain, hpc, logFatalf]
    refine ⟨h1, ?_⟩
    intro sched
    rw [run_exited _ _ (by rw [h1]; rfl)]
    simp [step, hsome, stepMain, hpc, logFatalf, hfmt]
  · intro ctx s₀ h0 hp
    have h0s : s₀.exited.isSome = false := by rw [h0]; rfl
    constructor
    · intro ha
      simp [step, h0s, stepMain, hp, ha]
    · intro ha hexp
      simp [step, h0s, stepMain, hp, ha, hexp]

/-- An interrupt with no connection open: the process ends with code 0. -/
theorem shutdown_result_decides_witness :
    (run (run (init defaultFlags none 0)
        [.main, .main, .goroutine, .goroutine, .main, .interrupt, .main, .main, .main, .main, .main])
      [.main, .main]).exited = some (.code 0) :=
  ((shutdown_result_decides
    (run (init defaultFlags none 0)
        [.main, .main, .goroutine, .goroutine, .main, .interrupt, .main, .main, .main, .main, .main])
    none (by decide) (by decide)).1 rfl).1

theorem mem_of_precedes_target {a b : Event → Bool} {tr : List Event} {x : Event}
    (h : precedes a b tr) (hx : x ∈ tr) (hb : b x = true) : ∃ y ∈ tr, a y = true := by
  obtain ⟨pre, post, rfl⟩ := List.append_of_mem hx
  obtain ⟨y, hy, hay⟩ := h pre x post rfl hb
  exact ⟨y, List.mem_append.mpr (Or.inl hy), hay⟩

/-- C7: the grace period is 5 seconds, 5 * 10^9 ns, whatever the flags: in every
run, the context given to `server.Shutdown` is the one made at line 71, a
`context.WithTimeout` of `context.Background()` with that timeout, hence with a
deadline 5 * 10^9 ns after its making, and it is made after the receive from
`quit`. -/
theorem grace_period_fixed :
    5 * Second = 5000000000 ∧
    ∀ (f : Flags) (e : Option GoError) (t₀ : Nat) (sched : List Action),
      (∀ ctx, Event.Shutdown ctx ∈ (run (init f e t₀) sched).trace →
        Event.newContext ctx ∈ (run (init f e t₀) sched).trace ∧
        ∃ t, ctx = .WithTimeout .Background t 5000000000 ∧
          ctx.deadline = some (t + 5000000000)) ∧
      (∀ ctx, Event.newContext ctx ∈ (run (init f e t₀) sched).trace →
        ∃ t, ctx = .WithTimeout .Background t 5000000000) ∧
      (∀ ctx, precedes (· == Event.newContext ctx) (· == Event.Shutdown ctx)
        (run (init f e t₀) sched).trace) ∧
      precedes (· == Event.recv) Event.isNewContext (run (init f e t₀) sched).trace := by
  have h5 : 5 * Second = 5000000000 := by decide
  refine ⟨h5, ?_⟩
  intro f e t₀ sched
  have hinv := inv_reachable f e t₀ sched
  refine ⟨?_, ?_, hinv.context_shutdown, hinv.recv_context⟩
  · intro ctx hx
    obtain ⟨y, hy, hay⟩ := mem_of_precedes_target (hinv.context_shutdown ctx) hx (by simp)
    have hyeq : y = Event.newContext ctx := by simpa using hay
    subst hyeq
    refine ⟨hy, ?_⟩
    obtain ⟨t, ht⟩ := hinv.context_shape ctx hy
    rw [h5] at ht
    exact ⟨t, ht, by rw [ht]; rfl⟩
  · intro ctx hx
    obtain ⟨t, ht⟩ := hinv.context_shape ctx hx
    rw [h5] at ht
    exact ⟨t, ht⟩

/-- The context of a shutdown begun 7 ns after the start, on port 8080. -/
theorem grace_period_fixed_witness :
    ∃ t, Context.WithTimeout .Background 7 5000000000 = .WithTimeout .Background t 5000000000 :=
  (grace_period_fixed.2 { port := 8080, addr := "127.0.0.1", certFile := "", keyFile := "" }
    none 0 [.main, .main, .main, .interrupt, .tick 7, .main, .main, .main, .main]).2.1
    (.WithTimeout .Background 7 5000000000) (by decide)

/-- C9: in every run `server.Shutdown` is called at most once and a value is
received from `quit` at most once; the call comes after the receive and the
receive after an interrupt; an interrupt that arrives once the value has been
received moves neither the main goroutine nor the count of calls; and from the
receive, with a value in the channel, four statements of `main` make the one
call. -/
theorem shutdown_once (f : Flags) (e : Option GoError) (t₀ : Nat) (sched : List Action) :
    (run (init f e t₀) sched).trace.countP Event.isShutdown ≤ 1 ∧
    (run (init f e t₀) sched).trace.countP (· == Event.recv) ≤ 1 ∧
    precedes (· == Event.recv) Event.isShutdown (run (init f e t₀) sched).trace ∧
    precedes (· == Event.interrupt) (· == Event.recv) (run (init f e t₀) sched).trace ∧
    ((run (init f e t₀) sched).main.received = true →
      (step (run (init f e t₀) sched) .interrupt).main = (run (init f e t₀) sched).main ∧
      (step (run (init f e t₀) sched) .interrupt).trace.countP Event.isShutdown =
        (run (init f e t₀) sched).trace.countP Event.isShutdown) ∧
    ((run (init f e t₀) sched).exited = none → (run (init f e t₀) sched).main = .recv →
      (run (init f e t₀) sched).quit ≠ 0 →
      (run (init f e t₀) (sched ++ [.main, .main, .main, .main])).trace.countP
        Event.isShutdown = 1) := by
  have hinv := inv_reachable f e t₀ sched
  refine ⟨?_, ?_, hinv.recv_shutdown, hinv.interrupt_recv, ?_, ?_⟩
  · rw [hinv.shutdown_count]; split <;> simp
  · rw [hinv.recv_count]; split <;> simp
  · intro _
    generalize run (init f e t₀) sched = s
    unfold step
    split
    · exact ⟨rfl, rfl⟩
    · simp only []
      split <;> simp [List.countP_append, Event.isShutdown]
  · intro halive hpc hq
    have hinv2 := inv_reachable f e t₀ (sched ++ [.main, .main, .main, .main])
    rw [hinv2.shutdown_count, run_append]
    have hcount := hinv.shutdown_count
    generalize run (init f e t₀) sched = s at *
    have hsome : s.exited.isSome = false := by rw [halive]; rfl
    simp [run, step, hsome, stepMain, hpc, hq, halive, MainPc.shutdownCalled]

/-- Two interrupts in a row: one receive, one call of `server.Shutdown`. -/
theorem shutdown_once_witness :
    (run (init defaultFlags none 0)
      ([.main, .main, .main, .interrupt, .interrupt] ++ [.main, .main, .main, .main])).trace.countP
        Event.isShutdown = 1 :=
  (shutdown_once defaultFlags none 0 [.main, .main, .main, .interrupt, .interrupt]).2.2.2.2.2
    (by decide) (by decide) (by decide)

/-! ## Where the main goroutine waits -/

/-- C10, as stated, fails: with a connection accepted and not idle, the main
goroutine of a process that has called `server.Shutdown` cannot go on, and it is
not at the receive from `quit`. -/
theorem main_blocks_in_shutdown :
    ¬ (∀ sched : List Action, mainBlocked (run (init defaultFlags none 0) sched) →
        (run (init defaultFlags none 0) sched).main = .recv) := by
  intro h
  have := h [.main, .main, .goroutine, .goroutine, .main, .accept, .interrupt,
    .main, .main, .main, .main] (by decide)
  revert this
  decide

theorem expired_mono (ctx : Context) (t t' : Nat) (h : ctx.expired t = false) (hle : t' ≤ t) :
    ctx.expired t' = false := by
  unfold Context.expired at h ⊢
  cases hd : ctx.deadline with
  | none => rfl
  | some d =>
    rw [hd] at h
    simp only [decide_eq_false_iff_not, not_le] at h ⊢
    omega

theorem step_no_interrupt (s : State) (a : Action) (ha : a ≠ .interrupt)
    (hq : s.quit = 0) (hr : s.main.received = false) :
    (step s a).quit = 0 ∧ (step s a).main.received = false := by
  rcases s with ⟨flags, closeErr, now, main, goroutine, notified, quit, inShutdown, active, trace,
    exited⟩
  unfold step
  split
  · exact ⟨hq, hr⟩
  · cases a
    · cases main
      all_goals simp only [stepMain, fsSubErr_static, logFatalf] at *
      all_goals try split
      all_goals simp_all [MainPc.received]
    · cases goroutine
      all_goals simp only [stepGoroutine, logFatalf] at *
      all_goals try split
      all_goals try split
      all_goals simp_all [MainPc.received]
    all_goals simp only [] at *
    all_goals try split
    all_goals simp_all [MainPc.received]

theorem run_no_interrupt (s : State) (sched : List Action) (h : ∀ a ∈ sched, a ≠ .interrupt)
    (hq : s.quit = 0) (hr : s.main.received = false) :
    (run s sched).main.received = false := by
  induction sched generalizing s with
  | nil => exact hr
  | cons a rest ih =>
    obtain ⟨hq', hr'⟩ := step_no_interrupt s a (h a (List.mem_cons_self _ _)) hq hr
    exact ih (step s a) (fun b hb => h b (List.mem_cons_of_mem _ hb)) hq' hr'

theorem step_polling (s : State) (ctx : Context) (a : Action) (hpc : s.main = .polling ctx)
    (hact : s.active ≠ 0) (ha : a ≠ .finish) (hexp : ctx.expired s.now = false) :
    (step s a).main = .polling ctx ∧ (step s a).active ≠ 0 ∧
      (step s a).now ≤ s.now + a.elapsed := by
  rcases s with ⟨flags, closeErr, now, main, goroutine, notified, quit, inShutdown, active, trace,
    exited⟩
  simp only at hpc hact hexp
  subst hpc
  unfold step
  split
  · exact ⟨rfl, hact, Nat.le_add_right _ _⟩
  · cases a
    · simp [stepMain, hact, hexp, Action.elapsed]
    · cases goroutine
      all_goals simp only [stepGoroutine, logFatalf, Action.elapsed] at *
      all_goals try split
      all_goals try split
      all_goals simp_all
    all_goals simp only [Action.elapsed] at *
    all_goals try split
    all_goals simp_all

theorem run_polling (s : State) (ctx : Context) (sched : List Action)
    (hpc : s.main = .polling ctx) (hact : s.active ≠ 0) (h : ∀ a ∈ sched, a ≠ .finish)
    (hexp : ctx.expired (s.now + ticks sched) = false) :
    (run s sched).main = .polling ctx := by
  induction sched generalizing s with
  | nil => exact hpc
  | cons a rest ih =>
    have hnow : ctx.expired s.now = false := expired_mono ctx _ _ hexp (Nat.le_add_right _ _)
    obtain ⟨hpc', hact', hle⟩ :=
      step_polling s ctx a hpc hact (h a (List.mem_cons_self _ _)) hnow
    refine ih (step s a) hpc' hact' (fun b hb => h b (List.mem_cons_of_mem _ hb)) ?_
    refine expired_mono ctx _ _ hexp ?_
    simp only [ticks]
    omega

theorem run_main_at_recv (s : State) (n : Nat) (halive : s.exited = none)
    (hpc : s.main = .recv) (hq : s.quit = 0) : run s (List.replicate n .main) = s := by
  induction n with
  | zero => rfl
  | succ n ih =>
    have hstep : step s .main = s := by
      have hsome : s.exited.isSome = false := by rw [halive]; rfl
      simp [step, hsome, stepMain, hpc, hq]
    show run (step s .main) (List.replicate n .main) = s
    rw [hstep, ih]

/-- C10, amended: the main goroutine waits in two places, not in one.  It
waits at the receive from `quit`: run alone, for any number of steps, it stands
there, and in no run without an interrupt does it get past the receive or end
the process with code 0.  And it waits inside `server.Shutdown`: once it is in
the call with a connection that `Shutdown` waits for, no schedule that takes no
such connection away and lets the context not expire gets it out of the call.
Each of the two places is passed at most once in a run.  Of the other
operations of the main path nothing is said. -/
theorem main_waits :
    (∀ (f : Flags) (e : Option GoError) (t₀ : Nat) (n : Nat),
      (run (init f e t₀) (List.replicate (n + 3) .main)).main = .recv ∧
      (run (init f e t₀) (List.replicate (n + 3) .main)).exited = none) ∧
    (∀ (f : Flags) (e : Option GoError) (t₀ : Nat) (sched : List Action),
      (∀ a ∈ sched, a ≠ .interrupt) →
        (run (init f e t₀) sched).main.received = false ∧
        (run (init f e t₀) sched).exited ≠ some (.code 0)) ∧
    (∀ (s : State) (ctx : Context) (sched : List Action),
      s.main = .polling ctx → s.active ≠ 0 → (∀ a ∈ sched, a ≠ .finish) →
        ctx.expired (s.now + ticks sched) = false →
        (run s sched).main = .polling ctx) ∧
    (∀ (f : Flags) (e : Option GoError) (t₀ : Nat) (sched : List Action),
      (run (init f e t₀) sched).trace.countP (· == Event.recv) ≤ 1 ∧
      (run (init f e t₀) sched).trace.countP Event.isShutdown ≤ 1) := by
  refine ⟨?_, ?_, ?_, ?_⟩
  · intro f e t₀ n
    have h3 : List.replicate (n + 3) Action.main =
        [.main, .main, .main] ++ List.replicate n Action.main := by
      simp [List.replicate_succ]
    have hs : run (init f e t₀) [.main, .main, .main] =
        { init f e t₀ with main := .recv, goroutine := .start, notified := true,
                            trace := [.go, .Notify] } := by
      simp [run, step, init, stepMain, fsSubErr_static]
    rw [h3, run_append, hs, run_main_at_recv _ n rfl rfl rfl]
    exact ⟨rfl, rfl⟩
  · intro f e t₀ sched h
    have hr := run_no_interrupt (init f e t₀) sched h rfl rfl
    refine ⟨hr, ?_⟩
    intro hex
    have := (inv_reachable f e t₀ sched).exit_zero hex
    rw [this] at hr
    cases hr
  · intro s ctx sched hpc hact h hexp
    exact run_polling s ctx sched hpc hact h hexp
  · intro f e t₀ sched
    have hinv := inv_reachable f e t₀ sched
    constructor
    · rw [hinv.recv_count]; split <;> simp
    · rw [hinv.shutdown_count]; split <;> simp

/-- A connection is open when the interrupt comes: one second later, whatever
the goroutines have done, `main` is still inside `server.Shutdown`. -/
theorem main_waits_witness :
    (run (run (init defaultFlags none 0)
        [.main, .main, .goroutine, .goroutine, .main, .accept, .interrupt,
          .main, .main, .main, .main])
      [.main, .tick 1000000000, .main, .interrupt, .goroutine, .main]).main =
      .polling (.WithTimeout .Background 0 5000000000) :=
  main_waits.2.2.1
    (run (init defaultFlags none 0)
      [.main, .main, .goroutine, .goroutine, .main, .accept, .interrupt,
        .main, .main, .main, .main])
    (.WithTimeout .Background 0 5000000000)
    [.main, .tick 1000000000, .main, .interrupt, .goroutine, .main]
    (by decide) (by decide) (by decide) (by decide)

/-! ## Path cleaning leaves no parent-directory element -/

theorem splitOn_append_sep (a b : List Char) :
    (a ++ '/' :: b).splitOn '/' = a.splitOn '/' ++ b.splitOn '/' := by
  unfold List.splitOn
  induction a with
  | nil => simp
  | cons x a ih =>
    simp only [List.cons_append, List.splitOnP_cons]
    split
    · simp [ih]
    · rw [ih]
      cases h : List.splitOnP (fun x => x == '/') a with
      | nil => exact absurd h (List.splitOnP_ne_nil _ _)
      | cons hd tlx => simp [List.modifyHead]

theorem splitOn_no_sep (e : List Char) (h : '/' ∉ e) : e.splitOn '/' = [e] := by
  unfold List.splitOn
  apply List.splitOnP_eq_single
  intro x hx hp
  have : x = '/' := by simpa using hp
  subst this
  exact h hx

theorem last_slash (l : List Char) (h : '/' ∈ l) :
    ∃ A e, l = A ++ '/' :: e ∧ '/' ∉ e := by
  induction l with
  | nil => cases h
  | cons c l ih =>
    by_cases hl : '/' ∈ l
    · obtain ⟨A, e, rfl, he⟩ := ih hl
      exact ⟨c :: A, e, rfl, he⟩
    · have hc : c = '/' := by
        rcases List.mem_cons.mp h with h | h
        · exact h.symm
        · exact absurd h hl
      subst hc
      exact ⟨[], l, rfl, hl⟩

theorem scanBack_root (e : List Char) (he : '/' ∉ e) (k : Nat) (hk : k + 1 ≤ e.length) :
    scanBack ('/' :: e) 1 (k + 1) = 1 := by
  induction k with
  | zero => simp [scanBack]
  | succ k ih =>
    have hlt : k + 1 < e.length := by omega
    have hne : ('/' :: e).getD (k + 1 + 1) '/' ≠ '/' := by
      simp only [List.getD_cons_succ]
      rw [List.getD_eq_getElem _ _ hlt]
      intro hc
      exact he (hc ▸ List.getElem_mem hlt)
    rw [scanBack]
    simp only [hne, ne_eq, not_false_eq_true, and_true]
    rw [if_pos (by omega)]
    exact ih (by omega)

theorem scanBack_inner (A e : List Char) (hA : A ≠ []) (he : '/' ∉ e) (k : Nat)
    (hk : k ≤ e.length) :
    scanBack (A ++ '/' :: e) 1 (A.length + k) = A.length := by
  have hpos : 0 < A.length := List.length_pos.mpr hA
  induction k with
  | zero =>
    obtain ⟨n, hn⟩ : ∃ n, A.length = n + 1 := ⟨A.length - 1, by omega⟩
    simp only [Nat.add_zero, hn]
    rw [scanBack]
    have : (A ++ '/' :: e).getD (n + 1) '/' = '/' := by
      rw [← hn, List.getD_append_right _ _ _ _ (le_refl _)]
      simp
    rw [if_neg]
    rintro ⟨-, h⟩
    exact h this
  | succ k ih =>
    have hlt : k < e.length := by omega
    have hne : (A ++ '/' :: e).getD (A.length + k + 1) '/' ≠ '/' := by
      rw [List.getD_append_right _ _ _ _ (by omega)]
      have : A.length + k + 1 - A.length = k + 1 := by omega
      rw [this, List.getD_cons_succ, List.getD_eq_getElem _ _ hlt]
      intro hc
      exact he (hc ▸ List.getElem_mem hlt)
    show scanBack (A ++ '/' :: e) 1 (A.length + k + 1) = A.length
    rw [scanBack]
    simp only [hne, ne_eq, not_false_eq_true, and_true]
    rw [if_pos (by omega)]
    exact ih (by omega)

theorem dropWhile_length_le (l : List Char) :
    (l.dropWhile (· ≠ '/')).length ≤ l.length := by
  induction l with
  | nil => simp
  | cons c l ih =>
    rw [List.dropWhile_cons]
    split
    · simp only [List.length_cons]; omega
    · simp

/-- The loop of `path.Clean` does not depend on its fuel once the fuel covers
the input still to read: the fuel never runs out before the input does. -/
theorem cleanLoop_fuel (rooted : Bool) (f₁ f₂ : Nat) (rest out : List Char) (dotdot : Nat)
    (h₁ : rest.length ≤ f₁) (h₂ : rest.length ≤ f₂) :
    cleanLoop rooted f₁ rest out dotdot = cleanLoop rooted f₂ rest out dotdot := by
  induction f₁ generalizing f₂ rest out dotdot with
  | zero =>
    have : rest = [] := List.length_eq_zero.mp (by omega)
    subst this
    cases f₂ <;> simp [cleanLoop]
  | succ f₁ ih =>
    cases rest with
    | nil => cases f₂ <;> simp [cleanLoop]
    | cons c tl =>
      cases f₂ with
      | zero => simp at h₂
      | succ f₂ =>
        simp only [List.length_cons] at h₁ h₂
        have htl : tl.tail.length ≤ tl.length := by simp
        have hdrop := dropWhile_length_le tl
        rw [cleanLoop, cleanLoop]
        split
        · exact ih _ _ _ _ (by omega) (by omega)
        · split
          · exact ih _ _ _ _ (by omega) (by omega)
          · split
            · split
              · exact ih _ _ _ _ (by omega) (by omega)
              · split
                · exact ih _ _ _ _ (by omega) (by omega)
                · exact ih _ _ _ _ (by omega) (by omega)
            · rename_i hc _ _
              have hd : (c :: tl).dropWhile (· ≠ '/') = tl.dropWhile (· ≠ '/') := by
                rw [List.dropWhile_cons_of_pos (by simpa using hc)]
              simp only [hd]
              exact ih _ _ _ _ (by omega) (by omega)

theorem rootedClean_root : RootedClean ['/'] := ⟨rfl, by decide⟩

theorem rootedClean_backtrack (out : List Char) (h : RootedClean out) (hlen : out.length > 1) :
    RootedClean (out.take (scanBack out 1 (out.length - 1))) := by
  have hmem : '/' ∈ out := by
    cases out with
    | nil => cases h.head
    | cons c t =>
      have : c = '/' := by simpa using h.head
      subst this
      exact List.mem_cons_self _ _
  obtain ⟨A, e, rfl, he⟩ := last_slash out hmem
  have hsegs := h.clean
  rw [splitOn_append_sep, splitOn_no_sep e he] at hsegs
  cases A with
  | nil =>
    have hk : e.length - 1 + 1 ≤ e.length := by
      simp only [List.nil_append, List.length_cons] at hlen
      omega
    have hidx : ([] ++ '/' :: e).length - 1 = (e.length - 1) + 1 := by
      simp only [List.nil_append, List.length_cons] at hlen ⊢
      omega
    rw [hidx]
    simp only [List.nil_append]
    rw [scanBack_root e he _ hk]
    exact rootedClean_root
  | cons a A =>
    have hidx : ((a :: A) ++ '/' :: e).length - 1 = (a :: A).length + e.length := by
      simp only [List.length_append, List.length_cons]
      omega
    rw [hidx, scanBack_inner (a :: A) e (List.cons_ne_nil _ _) he _ (le_refl _)]
    rw [List.take_left]
    constructor
    · simpa using h.head
    · intro hc
      exact hsegs (List.mem_append.mpr (Or.inl hc))

theorem rootedClean_push (out elem : List Char) (h : RootedClean out) (hs : '/' ∉ elem)
    (hne : elem ≠ ['.', '.']) :
    RootedClean
      ((if (true && out.length != 1) || (!true && out.length != 0) then out ++ ['/'] else out)
        ++ elem) := by
  by_cases hl : out.length = 1
  · have hout : out = ['/'] := by
      cases out with
      | nil => cases h.head
      | cons c t =>
        have hc : c = '/' := by simpa using h.head
        have ht : t = [] := by
          simp only [List.length_cons] at hl
          exact List.length_eq_zero.mp (by omega)
        rw [hc, ht]
    subst hout
    simp only [List.length_singleton, bne_self_eq_false, Bool.and_false, Bool.not_true,
      Bool.false_and, Bool.or_self, Bool.false_eq_true, ↓reduceIte, List.singleton_append]
    constructor
    · rfl
    · have : ('/' :: elem) = [] ++ '/' :: elem := rfl
      rw [this, splitOn_append_sep, splitOn_no_sep elem hs]
      simp only [List.splitOn_nil, List.singleton_append, List.mem_cons, List.mem_singleton,
        List.not_mem_nil, or_false, not_or]
      exact ⟨by decide, fun hc => hne hc.symm⟩
  · have hcond : ((true && out.length != 1) || (!true && out.length != 0)) = true := by
      simp [hl]
    rw [if_pos hcond, List.append_assoc, List.singleton_append]
    constructor
    · cases out with
      | nil => cases h.head
      | cons c t => simpa using h.head
    · rw [splitOn_append_sep, splitOn_no_sep elem hs]
      intro hc
      rcases List.mem_append.mp hc with hc | hc
      · exact h.clean hc
      · exact hne (List.mem_singleton.mp hc).symm

theorem takeWhile_no_slash (l : List Char) : '/' ∉ l.takeWhile (· ≠ '/') := by
  intro h
  have := List.mem_takeWhile_imp h
  simp at this

theorem takeWhile_dotdot (c : Char) (tl : List Char)
    (h : (c :: tl).takeWhile (· ≠ '/') = ['.', '.']) :
    c = '.' ∧ tl.head? = some '.' ∧ (tl.tail = [] ∨ tl.tail.head? = some '/') := by
  by_cases hc : c = '/'
  · subst hc
    simp [List.takeWhile] at h
  · rw [List.takeWhile_cons_of_pos (by simpa using hc)] at h
    obtain ⟨hc1, h1⟩ := List.cons.inj h
    refine ⟨hc1, ?_⟩
    cases tl with
    | nil => simp at h1
    | cons d tl2 =>
      by_cases hd : d = '/'
      · subst hd
        simp [List.takeWhile] at h1
      · rw [List.takeWhile_cons_of_pos (by simpa using hd)] at h1
        obtain ⟨hd1, h2⟩ := List.cons.inj h1
        refine ⟨by simp [hd1], ?_⟩
        cases tl2 with
        | nil => exact Or.inl rfl
        | cons x tl3 =>
          right
          by_cases hx : x = '/'
          · simp [hx]
          · rw [List.takeWhile_cons_of_pos (by simpa using hx)] at h2
            cases h2

theorem cleanLoop_rooted (fuel : Nat) (rest out : List Char) (h : RootedClean out) :
    RootedClean (cleanLoop true fuel rest out 1) := by
  induction fuel generalizing rest out with
  | zero => simpa [cleanLoop] using h
  | succ fuel ih =>
    cases rest with
    | nil => simpa [cleanLoop] using h
    | cons c tl =>
      rw [cleanLoop]
      split
      · exact ih _ _ h
      · split
        · exact ih _ _ h
        · split
          · split
            · exact ih _ _ (rootedClean_backtrack out h (by assumption))
            · simp only [Bool.not_true, Bool.false_eq_true, ↓reduceIte]
              exact ih _ _ h
          · apply ih
            apply rootedClean_push out _ h (takeWhile_no_slash _)
            intro hc
            exact (by assumption : ¬(c = '.' ∧ tl.head? = some '.' ∧
              (tl.tail = [] ∨ tl.tail.head? = some '/'))) (takeWhile_dotdot c tl hc)

theorem Clean_rooted (q : String) (t : List Char) (hq : q.data = '/' :: t) :
    ∃ out, Clean q = ⟨out⟩ ∧ RootedClean out := by
  have hne : q ≠ "" := by
    intro h
    rw [h] at hq
    cases hq
  have hinv := cleanLoop_rooted q.length t ['/'] rootedClean_root
  refine ⟨cleanLoop true q.length t ['/'] 1, ?_, hinv⟩
  have hout : cleanLoop true q.length t ['/'] 1 ≠ [] := by
    intro h
    have := hinv.head
    rw [h] at this
    cases this
  simp [Clean, hne, hq, hout]

theorem no_dotdot_of_rootedClean (out : List Char) (h : RootedClean out) :
    hasDotDotSegment ⟨out⟩ = false ∧ hasDotDotSegment ⟨out ++ ['/']⟩ = false := by
  constructor
  · simpa [hasDotDotSegment] using h.clean
  · have : (out ++ ['/']).splitOn '/' = out.splitOn '/' ++ [[]] := by
      rw [splitOn_append_sep]; rfl
    simp only [hasDotDotSegment, this]
    simpa using h.clean

theorem cleanPath_no_dotdot (p : String) : hasDotDotSegment (cleanPath p) = false := by
  unfold cleanPath
  split
  · decide
  · rename_i hp
    have hroot : ∃ t, (if p.data.head? != some '/' then "/" ++ p else p).data = '/' :: t := by
      split
      · exact ⟨p.data, rfl⟩
      · rename_i h
        cases hd : p.data with
        | nil => exact absurd (String.ext hd) hp
        | cons c t =>
          rw [hd] at h
          have : c = '/' := by simpa using h
          exact ⟨t, by rw [this]⟩
    obtain ⟨t, ht⟩ := hroot
    obtain ⟨out, hout, hinv⟩ := Clean_rooted _ t ht
    generalize (if p.data.head? != some '/' then "/" ++ p else p) = p₁ at ht hout
    simp only [hout]
    obtain ⟨h1, h2⟩ := no_dotdot_of_rootedClean out hinv
    split
    · split
      · rename_i hlast hfast
        simp only [Bool.and_eq_true, beq_iff_eq] at hlast hfast
        obtain ⟨hlen, hpre⟩ := hfast
        obtain ⟨x, hx⟩ := List.isPrefixOf_iff_prefix.mp hpre
        have hxlen : x.length = 1 := by
          have := congrArg List.length hx
          simp only [List.length_append] at this
          simp only [String.length] at hlen
          omega
        obtain ⟨y, rfl⟩ := List.length_eq_one.mp hxlen
        have hy : y = '/' := by
          have := hlast.1
          rw [← hx] at this
          simpa using this
        subst hy
        have : p₁ = ⟨out ++ ['/']⟩ := String.ext hx.symm
        rw [this]
        exact h2
      · exact h2
    · exact h1

theorem cleanPath_ne_of_dotdot (p : String) (h : hasDotDotSegment p = true) :
    cleanPath p ≠ p := by
  intro heq
  have := cleanPath_no_dotdot p
  rw [heq, h] at this
  cases this

/-! ## The sub-tree `static` is a boundary -/

theorem joinElems_splitOn (l : List Char) : joinElems (l.splitOn '/') = l := by
  unfold List.splitOn
  induction l with
  | nil => rfl
  | cons x xs ih =>
    rw [List.splitOnP_cons]
    cases hsp : List.splitOnP (fun c => c == '/') xs with
    | nil => exact absurd hsp (List.splitOnP_ne_nil _ _)
    | cons hd tlx =>
      rw [hsp] at ih
      split
      · rename_i hx
        have hx' : x = '/' := by simpa using hx
        subst hx'
        show [] ++ '/' :: joinElems (hd :: tlx) = '/' :: xs
        rw [ih]; rfl
      · cases tlx with
        | nil =>
          simp only [List.modifyHead, joinElems] at ih ⊢
          rw [ih]
        | cons t ts =>
          simp only [List.modifyHead, joinElems] at ih ⊢
          rw [List.cons_append, ih]

theorem splitOn_no_slash (l : List Char) : ∀ e ∈ l.splitOn '/', '/' ∉ e := by
  unfold List.splitOn
  induction l with
  | nil => intro e he; simp at he; subst he; simp
  | cons x xs ih =>
    rw [List.splitOnP_cons]
    cases hsp : List.splitOnP (fun c => c == '/') xs with
    | nil => exact absurd hsp (List.splitOnP_ne_nil _ _)
    | cons hd tlx =>
      rw [hsp] at ih
      split
      · intro e he
        rcases List.mem_cons.mp he with he | he
        · subst he; simp
        · exact ih e he
      · rename_i hx
        have hx' : x ≠ '/' := by simpa using hx
        intro e he
        simp only [List.modifyHead, List.mem_cons] at he
        rcases he with he | he
        · subst he
          intro hmem
          rcases List.mem_cons.mp hmem with h | h
          · exact hx' h.symm
          · exact ih hd (List.mem_cons_self _ _) h
        · exact ih e (List.mem_cons_of_mem _ he)

theorem cleanLoop_good_step (e S : List Char) (he : goodElem e)
    (hS : S = [] ∨ ∃ J, S = '/' :: J) (f : Nat) (out : List Char) (dotdot : Nat) :
    cleanLoop false (f + 1) (e ++ S) out dotdot =
      cleanLoop false f S ((if out.length != 0 then out ++ ['/'] else out) ++ e) dotdot := by
  obtain ⟨hbad, hslash⟩ := he
  cases e with
  | nil => simp [badElem] at hbad
  | cons c tl =>
    have hc : c ≠ '/' := fun h => hslash (h ▸ List.mem_cons_self _ _)
    have htl : '/' ∉ tl := fun h => hslash (List.mem_cons_of_mem _ h)
    have hShead : S.head? = none ∨ S.head? = some '/' := by
      rcases hS with rfl | ⟨J, rfl⟩
      · exact Or.inl rfl
      · exact Or.inr rfl
    have h2 : ¬ (c = '.' ∧ (tl ++ S = [] ∨ (tl ++ S).head? = some '/')) := by
      rintro ⟨rfl, h | h⟩
      · have : tl = [] := (List.append_eq_nil.mp h).1
        subst this
        simp [badElem] at hbad
      · cases tl with
        | nil => simp [badElem] at hbad
        | cons d tl2 =>
          have : d = '/' := by simpa using h
          exact htl (this ▸ List.mem_cons_self _ _)
    have h3 : ¬ (c = '.' ∧ (tl ++ S).head? = some '.' ∧
        ((tl ++ S).tail = [] ∨ (tl ++ S).tail.head? = some '/')) := by
      rintro ⟨rfl, hh, ht⟩
      cases tl with
      | nil =>
        rcases hShead with h | h <;> simp [h] at hh
      | cons d tl2 =>
        have hd : d = '.' := by simpa using hh
        subst hd
        simp only [List.cons_append, List.tail_cons] at ht
        rcases ht with ht | ht
        · have : tl2 = [] := (List.append_eq_nil.mp ht).1
          subst this
          simp [badElem] at hbad
        · cases tl2 with
          | nil => simp [badElem] at hbad
          | cons x tl3 =>
            have : x = '/' := by simpa using ht
            exact htl (List.mem_cons_of_mem _ (this ▸ List.mem_cons_self _ _))
    have hrest : (c :: tl) ++ S = c :: (tl ++ S) := rfl
    have htake : (c :: (tl ++ S)).takeWhile (· ≠ '/') = c :: tl := by
      rw [← hrest, List.takeWhile_append_of_pos]
      · rcases hS with rfl | ⟨J, rfl⟩ <;> simp [List.takeWhile]
      · intro x hx
        have : x ≠ '/' := fun h => hslash (h ▸ hx)
        simpa using this
    have hdrop : (c :: (tl ++ S)).dropWhile (· ≠ '/') = S := by
      rw [← hrest, List.dropWhile_append_of_pos]
      · rcases hS with rfl | ⟨J, rfl⟩ <;> simp [List.dropWhile]
      · intro x hx
        have : x ≠ '/' := fun h => hslash (h ▸ hx)
        simpa using this
    rw [hrest, cleanLoop]
    simp only []
    rw [if_neg hc, if_neg h2, if_neg h3, htake, hdrop]
    simp

theorem cleanLoop_goodElems (es : List (List Char)) (hes : es ≠ [])
    (hgood : ∀ e ∈ es, goodElem e) (fuel : Nat) (hf : (joinElems es).length ≤ fuel)
    (out : List Char) (dotdot : Nat) :
    cleanLoop false fuel (joinElems es) out dotdot =
      (if out.length != 0 then out ++ ['/'] else out) ++ joinElems es := by
  induction es generalizing fuel out with
  | nil => exact absurd rfl hes
  | cons e es ih =>
    have hge := hgood e (List.mem_cons_self _ _)
    have hepos : 0 < e.length := by
      cases e with
      | nil => simp [goodElem, badElem] at hge
      | cons c tl => simp
    cases es with
    | nil =>
      simp only [joinElems] at hf ⊢
      obtain ⟨f, rfl⟩ : ∃ f, fuel = f + 1 := ⟨fuel - 1, by omega⟩
      have := cleanLoop_good_step e [] hge (Or.inl rfl) f out dotdot
      rw [List.append_nil] at this
      rw [this]
      cases f <;> simp [cleanLoop]
    | cons e₂ es =>
      simp only [joinElems, List.length_append, List.length_cons] at hf ⊢
      obtain ⟨f, rfl⟩ : ∃ f, fuel = f + 2 := ⟨fuel - 2, by omega⟩
      rw [cleanLoop_good_step e _ hge (Or.inr ⟨_, rfl⟩) (f + 1) out dotdot]
      rw [cleanLoop]
      simp only [if_true]
      rw [ih (List.cons_ne_nil _ _) (fun x hx => hgood x (List.mem_cons_of_mem _ hx)) f
        (by omega)]
      have hne : (((if out.length != 0 then out ++ ['/'] else out) ++ e).length != 0) = true := by
        simp only [List.length_append, bne_iff_ne, ne_eq]
        omega
      rw [if_pos hne]
      simp only [List.append_assoc, List.singleton_append]

theorem Join_static_eq (name : String) (h : name ≠ "") :
    Join ["static", name] = Clean ("static/" ++ name) := by
  have hlen : name.length ≠ 0 := by
    intro h0
    apply h
    apply String.ext
    exact List.length_eq_zero.mp h0
  have h6 : ("static" : String).length = 6 := by decide
  have hs : ("static" : String) ≠ "" := by decide
  have hcat : ("static" : String) ++ "/" ++ name = "static/" ++ name := by
    apply String.ext
    simp
  simp [Join, h6, hs, hcat]

theorem Clean_static_valid (name : String) (hv : ValidPath name = true) (hdot : name ≠ ".") :
    Clean ("static/" ++ name) = "static/" ++ name ∧
      (("static/" ++ name).data.splitOn '/') = "static".data :: name.data.splitOn '/' := by
  have hall : (name.data.splitOn '/').all (fun e => !badElem e) = true := by
    have hne : (name == ".") = false := by simpa using hdot
    simpa [ValidPath, hne] using hv
  have hgood : ∀ e ∈ name.data.splitOn '/', goodElem e := by
    intro e he
    refine ⟨?_, splitOn_no_slash _ e he⟩
    have := List.all_eq_true.mp hall e he
    simpa using this
  have hdata : ("static/" ++ name).data = "static".data ++ '/' :: name.data := by
    simp
  have hsplit : (("static/" ++ name).data.splitOn '/') =
      "static".data :: name.data.splitOn '/' := by
    rw [hdata, splitOn_append_sep, splitOn_no_sep _ (by decide)]
    rfl
  refine ⟨?_, hsplit⟩
  have hjoin : ("static/" ++ name).data = joinElems ("static".data :: name.data.splitOn '/') := by
    rw [hdata]
    cases hsp : name.data.splitOn '/' with
    | nil => exact absurd hsp (List.splitOnP_ne_nil _ _)
    | cons hd tlx =>
      show _ = "static".data ++ '/' :: joinElems (hd :: tlx)
      rw [← hsp, joinElems_splitOn]
  have hgood' : ∀ e ∈ "static".data :: name.data.splitOn '/', goodElem e := by
    intro e he
    rcases List.mem_cons.mp he with he | he
    · subst he
      exact ⟨by decide, by decide⟩
    · exact hgood e he
  have hloop := cleanLoop_goodElems ("static".data :: name.data.splitOn '/')
    (List.cons_ne_nil _ _) hgood' ("static/" ++ name).length
    (by rw [← hjoin]; exact le_refl _) [] 0
  rw [← hjoin] at hloop
  have hne : ("static/" ++ name) ≠ "" := by
    intro h
    have := congrArg String.data h
    rw [hdata] at this
    cases this
  have hhead : (("static/" ++ name).data.head? == some '/') = false := by
    rw [hdata]; rfl
  have hout : ("static/" ++ name).data ≠ [] := by
    rw [hdata]; exact List.cons_ne_nil _ _
  simp only [Clean, hne, if_false, hhead, Bool.false_eq_true, hloop, List.length_nil,
    bne_self_eq_false, List.nil_append, hout]

theorem underStatic_Join (name : String) (hv : ValidPath name = true) :
    underStatic (Join ["static", name]) = true := by
  have hne : name ≠ "" := by
    intro h
    rw [h] at hv
    revert hv
    decide
  rw [Join_static_eq name hne]
  by_cases hdot : name = "."
  · subst hdot
    decide
  · obtain ⟨hclean, hsplit⟩ := Clean_static_valid name hv hdot
    rw [hclean]
    have hall : (name.data.splitOn '/').all (fun e => !badElem e) = true := by
      have hne : (name == ".") = false := by simpa using hdot
      simpa [ValidPath, hne] using hv
    have hb : badElem "static".data = false := by decide
    simp only [underStatic, ValidPath, hsplit, List.all_cons, hb, Bool.not_false, Bool.true_and,
      hall, Bool.or_true, List.head?_cons, beq_self_eq_true, Bool.and_self]

/-- The sub-tree opens only names that lie in `static`: two trees that agree
there give the same sub-tree. -/
theorem subFSOpen_static (content₁ content₂ : FS)
    (h : ∀ q, underStatic q = true → content₁ q = content₂ q) :
    subFSOpen content₁ "static" = subFSOpen content₂ "static" := by
  funext name
  unfold subFSOpen
  split
  · rename_i hv
    exact h _ (underStatic_Join name hv)
  · rfl

/-! ## Requests with a parent-directory element -/

theorem cleanPath_head (p : String) : (cleanPath p).data.head? = some '/' := by
  unfold cleanPath
  split
  · rfl
  · rename_i hp
    have hroot : ∃ t, (if p.data.head? != some '/' then "/" ++ p else p).data = '/' :: t := by
      split
      · exact ⟨p.data, rfl⟩
      · rename_i h
        cases hd : p.data with
        | nil => exact absurd (String.ext hd) hp
        | cons c t =>
          rw [hd] at h
          have : c = '/' := by simpa using h
          exact ⟨t, by rw [this]⟩
    obtain ⟨t, ht⟩ := hroot
    obtain ⟨out, hout, hinv⟩ := Clean_rooted _ t ht
    generalize (if p.data.head? != some '/' then "/" ++ p else p) = p₁ at ht hout
    simp only [hout]
    have hhead : ∃ t₂, out = '/' :: t₂ := by
      cases out with
      | nil => cases hinv.head
      | cons c t₂ =>
        have : c = '/' := by simpa using hinv.head
        exact ⟨t₂, by rw [this]⟩
    obtain ⟨t₂, rfl⟩ := hhead
    split
    · split
      · rw [ht]; rfl
      · rfl
    · rfl

theorem loggedMux_redirect (rel : Release) (fileServer : Handler) (w : Nat) (r : Request)
    (s : World) (hm : r.Method ≠ "CONNECT") (hu : r.RequestURI ≠ "*")
    (hne : cleanPath (muxPath rel r) ≠ muxPath rel r) :
    loggedMux rel fileServer w r s =
      (Redirect w r { Path := cleanPath (muxPath rel r), RawQuery := r.URL.RawQuery }
        rel.redirectStatus
        (logPrintf "%s %s %s" [.str r.RemoteAddr, .str r.Method, .str r.URL.Path] s),
        .returned) := by
  simp only [loggedMux, loggingMiddleware, ServeMux.ServeHTTP, ServeMux.findHandler, hu, hm,
    if_false, hne, ne_eq, not_false_eq_true, if_true, RedirectHandler]

theorem loggedMux_clean (rel : Release) (fileServer : Handler) (w : Nat) (r : Request)
    (s : World) (hm : r.Method ≠ "CONNECT") (hu : r.RequestURI ≠ "*")
    (heq : cleanPath (muxPath rel r) = muxPath rel r) :
    loggedMux rel fileServer w r s =
      fileServer w r
        (logPrintf "%s %s %s" [.str r.RemoteAddr, .str r.Method, .str r.URL.Path] s) := by
  have hhead : ((muxPath rel r).data.head? == some '/') = true := by
    rw [← heq, cleanPath_head]; rfl
  simp only [loggedMux, loggingMiddleware, ServeMux.ServeHTTP, ServeMux.findHandler, hu, hm,
    if_false, heq, ne_eq, not_true_eq_false, muxMatch, hhead, if_true]

theorem Redirect_status (w : Nat) (r : Request) (u : URL) (code : Nat) (s : World)
    (hfresh : (s.writers w).status = none) :
    ((Redirect w r u code s).writers w).status = some code := by
  simp only [Redirect, onWriter, if_true]
  split <;> split <;> simp [writeHeader, write, setHeader, hfresh]

/-- C4, as stated, fails: with the mux of a current release the answer to
`GET /../x` has status 307, not 404, even with a file server that would answer
200. -/
theorem traversal_not_404 :
    hasDotDotSegment "/../x" = true ∧
    ((loggedMux currentRelease sampleHandler 0
        { Method := "GET", URL := { Path := "/../x" }, RequestURI := "/../x",
          RemoteAddr := "10.0.0.1:5000" }
        { log := [], writers := fun _ => {} }).1.writers 0).status = some 307 ∧
    ((loggedMux currentRelease sampleHandler 0
        { Method := "GET", URL := { Path := "/../x" }, RequestURI := "/../x",
          RemoteAddr := "10.0.0.1:5000" }
        { log := [], writers := fun _ => {} }).1.writers 0).status ≠ some 404 := by
  decide

/-- C4, amended.  The path meant is the path as the mux reads it, which from
Go 1.22 on is the escaped path, the path as the request line spells it.  For
every release of the mux and every request other than CONNECT (and other than
the request target `*`): when that path has a parent-directory element, the mux
answers itself, with its redirect to the cleaned path, which has no
parent-directory element, the status being that of the release (307 in a
current one) on a fresh writer; the file server is not called, so the answer is
the same for every file server.  When that path is clean already, as is the
path of a request line that spells the dots as `%2e`, the mux hands the request
to the file server.  And for every request whatever, the answer of the handler
chain of lines 34 to 44 is the same for two embedded trees that agree on the
names under `static`: nothing from outside `static` reaches a response. -/
theorem traversal_redirected (rel : Release) :
    (∀ (fileServer : Handler) (w : Nat) (r : Request) (s : World),
      r.Method ≠ "CONNECT" → r.RequestURI ≠ "*" → hasDotDotSegment (muxPath rel r) = true →
        loggedMux rel fileServer w r s =
          (Redirect w r { Path := cleanPath (muxPath rel r), RawQuery := r.URL.RawQuery }
            rel.redirectStatus
            (logPrintf "%s %s %s" [.str r.RemoteAddr, .str r.Method, .str r.URL.Path] s),
            .returned) ∧
        hasDotDotSegment (cleanPath (muxPath rel r)) = false ∧
        (∀ other : Handler, loggedMux rel other w r s = loggedMux rel fileServer w r s) ∧
        ((s.writers w).status = none →
          ((loggedMux rel fileServer w r s).1.writers w).status = some rel.redirectStatus)) ∧
    (∀ (fileServer : Handler) (w : Nat) (r : Request) (s : World),
      r.Method ≠ "CONNECT" → r.RequestURI ≠ "*" → cleanPath (muxPath rel r) = muxPath rel r →
        loggedMux rel fileServer w r s =
          fileServer w r
            (logPrintf "%s %s %s" [.str r.RemoteAddr, .str r.Method, .str r.URL.Path] s)) ∧
    (∀ (fileServerOf : FS → Handler) (content₁ content₂ : FS),
      (∀ q, underStatic q = true → content₁ q = content₂ q) →
        handlerChain rel fileServerOf content₁ = handlerChain rel fileServerOf content₂) := by
  refine ⟨?_, ?_, ?_⟩
  · intro fileServer w r s hm hu hp
    have hne := cleanPath_ne_of_dotdot (muxPath rel r) hp
    refine ⟨loggedMux_redirect rel fileServer w r s hm hu hne, cleanPath_no_dotdot _,
      fun other => by
        rw [loggedMux_redirect rel other w r s hm hu hne,
          loggedMux_redirect rel fileServer w r s hm hu hne], ?_⟩
    intro hfresh
    rw [loggedMux_redirect rel fileServer w r s hm hu hne]
    exact Redirect_status w r _ _ _ hfresh
  · intro fileServer w r s hm hu heq
    exact loggedMux_clean rel fileServer w r s hm hu heq
  · intro fileServerOf content₁ content₂ h
    unfold handlerChain
    rw [subFSOpen_static content₁ content₂ h]

/-- With the mux of a current release: the redirect of `GET /a/../../x`; the
request line `GET /%2e%2e/index.html`, whose decoded path is `/../index.html`,
handed to the file server; and two trees that differ only beside `static`. -/
theorem traversal_redirected_witness :
    ((loggedMux currentRelease sampleHandler 0
        { Method := "GET", URL := { Path := "/a/../../x" }, RequestURI := "/a/../../x",
          RemoteAddr := "10.0.0.1:5000" }
        { log := [], writers := fun _ => {} }).1.writers 0).status = some 307 ∧
    loggedMux currentRelease (sampleFileServer (subFSOpen (sampleTree "one") "static")) 0
        { Method := "GET",
          URL := { Path := "/../index.html", EscapedPath := "/%2e%2e/index.html" },
          RequestURI := "/%2e%2e/index.html", RemoteAddr := "10.0.0.1:5000" }
        { log := [], writers := fun _ => {} } =
      sampleFileServer (subFSOpen (sampleTree "one") "static") 0
        { Method := "GET",
          URL := { Path := "/../index.html", EscapedPath := "/%2e%2e/index.html" },
          RequestURI := "/%2e%2e/index.html", RemoteAddr := "10.0.0.1:5000" }
        (logPrintf "%s %s %s"
          [.str "10.0.0.1:5000", .str "GET", .str "/../index.html"]
          { log := [], writers := fun _ => {} }) ∧
    handlerChain currentRelease sampleFileServer (sampleTree "one") =
      handlerChain currentRelease sampleFileServer (sampleTree "two") :=
  ⟨((traversal_redirected currentRelease).1 sampleHandler 0
      { Method := "GET", URL := { Path := "/a/../../x" }, RequestURI := "/a/../../x",
        RemoteAddr := "10.0.0.1:5000" }
      { log := [], writers := fun _ => {} } (by decide) (by decide) (by decide)).2.2.2 rfl,
    (traversal_redirected currentRelease).2.1
      (sampleFileServer (subFSOpen (sampleTree "one") "static")) 0
      { Method := "GET",
        URL := { Path := "/../index.html", EscapedPath := "/%2e%2e/index.html" },
        RequestURI := "/%2e%2e/index.html", RemoteAddr := "10.0.0.1:5000" }
      { log := [], writers := fun _ => {} } (by decide) (by decide) (by decide),
    (traversal_redirected currentRelease).2.2 sampleFileServer (sampleTree "one")
      (sampleTree "two") (by
        intro q hq
        unfold sampleTree
        by_cases h1 : q = "static/index.html"
        · simp [h1]
        · by_cases h2 : q = "secret.txt"
          · subst h2
            have hout : underStatic "secret.txt" = false := by decide
            rw [hout] at hq
            cases hq
          · simp [h1, h2])⟩

end Viewer
